import Mathlib

/-!
# Formal model of the `zcash-block` codec

A shallow embedding of the Zcash block / transaction codec implemented in
`zcash-block` (JavaScript).  Byte strings are modelled as `List Nat` with each
entry below 256; the cursor-based decoder of the sibling `bitcoin-block`
coding engine is modelled as a state-passing function over an immutable byte
list together with an absolute position, exactly mirroring the
`decoder.currentPosition()` / `decoder.absoluteSlice(start, len)` primitives
used by the custom hooks.  Cryptographic hashing (`dblSha2256`) and script
rendering are consumed as primitives by the library and are therefore
parameters of the model.
-/

namespace ZcashSpec

/-- Byte strings on the wire: lists of naturals, well-formed when < 256. -/
abbrev Bytes := List Nat

/-- Every entry of the byte string is an actual byte. -/
def wfBytes (l : Bytes) : Bool := l.all (fun b => b < 256)

/-- Fixed-width well-formedness: `n` bytes, all below 256. -/
def wfFixed (l : Bytes) (n : Nat) : Bool := (l.length == n) && wfBytes l

/-- Little-endian value of a byte list (first byte least significant). -/
def leValue (l : Bytes) : Nat := l.foldr (fun b acc => b + 256 * acc) 0

/-- Little-endian byte list of width `w` for value `n` (mod 2^(8w)). -/
def leBytes : Nat → Nat → Bytes
  | 0, _ => []
  | w + 1, n => n % 256 :: leBytes w (n / 256)

/-- `slice data pos len` is `decoder.absoluteSlice(pos, len)`:
the `len` bytes of `data` starting at absolute position `pos`. -/
def slice (data : Bytes) (pos len : Nat) : Bytes := (data.drop pos).take len

/-! ## The decoder engine

`bitcoin-block/coding` drives decoding with a cursor over an immutable byte
slice.  We model a decoder of result type `α` as a function from the full byte
string and the current absolute position to either an error or a pair of the
decoded value and the new position. -/

/-- Decode errors: the engine fails on reads past the end of input
(`truncated`), the transaction hook fails on an unrecognized
overwintered (version, group) pair (JS message: Unknown transaction format),
and `decodeType` with `strict` fails when trailing bytes remain. -/
inductive CodecErr where
  | truncated
  | unknownTransactionFormat
  | strictLengthUsage
  deriving DecidableEq, Repr

/-- A decoder over the cursor state: full data plus absolute position. -/
def Decoder (α : Type) : Type := Bytes → Nat → Except CodecErr (α × Nat)

/-- Monadic return: no bytes consumed. -/
def dpure (a : α) : Decoder α := fun _ pos => .ok (a, pos)

/-- Monadic bind: run the first decoder, continue at its end position. -/
def dbind (d : Decoder α) (f : α → Decoder β) : Decoder β := fun data pos =>
  match d data pos with
  | .error e => .error e
  | .ok (a, pos') => f a data pos'

instance : Monad Decoder where
  pure := dpure
  bind := dbind

/-- Raise a decode error (a JS `throw`). -/
def dthrow (e : CodecErr) : Decoder α := fun _ _ => .error e

/-- `decoder.readBytes / absoluteSlice`-style fixed-width read: take `n` bytes
at the cursor and advance, failing when the input is too short. -/
def readSlice (n : Nat) : Decoder Bytes := fun data pos =>
  if pos + n ≤ data.length then .ok (slice data pos n, pos + n)
  else .error .truncated

/-- `decoder.readUInt8`. -/
def readUInt8 : Decoder Nat := do
  let b ← readSlice 1
  pure (leValue b)

/-- `decoder.readUInt16LE`. -/
def readUInt16LE : Decoder Nat := do
  let b ← readSlice 2
  pure (leValue b)

/-- `decoder.readUInt32LE`. -/
def readUInt32LE : Decoder Nat := do
  let b ← readSlice 4
  pure (leValue b)

/-- `decoder.readUInt64LE` (used for the 9-byte compact-size form). -/
def readUInt64LE : Decoder Nat := do
  let b ← readSlice 8
  pure (leValue b)

/-- Signed 32-bit little-endian read (`int32_t nVersion`). -/
def readInt32LE : Decoder Int := do
  let n ← readUInt32LE
  pure (if n < 2147483648 then (n : Int) else (n : Int) - 4294967296)

/-- Signed 64-bit little-endian read (`CAmount`, `readBigInt64LE`). -/
def readInt64LE : Decoder Int := do
  let n ← readUInt64LE
  pure (if n < 9223372036854775808 then (n : Int)
        else (n : Int) - 18446744073709551616)

/-- Compact-size read: the Bitcoin-lineage 1/3/5/9-byte variable-length
integer prefix.  Modelled from the spec: below 0xFD one byte, 0xFD a 2-byte
LE value, 0xFE a 4-byte LE value, 0xFF an 8-byte LE value (the reader lives
in the sibling bitcoin-block library, consumed as a primitive). -/
def readCompactSize : Decoder Nat := do
  let ch ← readUInt8
  if ch < 0xFD then pure ch
  else if ch = 0xFD then readUInt16LE
  else if ch = 0xFE then readUInt32LE
  else readUInt64LE

/-- Repeated decoding for `std::array<T, N>` (fixed count, no prefix). -/
def readList (d : Decoder α) : Nat → Decoder (List α)
  | 0 => pure []
  | n + 1 => do
    let x ← d
    let xs ← readList d n
    pure (x :: xs)

/-- `std::vector<T>`: a compact-size count followed by that many elements. -/
def readVector (d : Decoder α) : Decoder (List α) := do
  let n ← readCompactSize
  readList d n

/-- `CScript` / `std::vector<unsigned char>`: compact-size prefixed bytes. -/
def readVarBytes : Decoder Bytes := do
  let n ← readCompactSize
  readSlice n

/-- The byte-span capture pattern of the custom hooks
(`_customDecoderMarkStart` records `decoder.currentPosition()`, and the
closing hook takes `decoder.absoluteSlice(start, end - start)`): run `d` and
return its value together with the exact byte span it consumed. -/
def captureSpan (d : Decoder α) : Decoder (α × Bytes) := fun data pos =>
  match d data pos with
  | .error e => .error e
  | .ok (a, pos') => .ok ((a, slice data pos (pos' - pos)), pos')

/-! ## Canonical encoders

`encodeType` yields byte segments in schema order; we model each encoder as a
pure function to `Bytes` and concatenation of segments as list append. -/

/-- Concatenated encodings of a list of values (generator `yield *` over a
vector's elements). -/
def encodeList (enc : α → Bytes) : List α → Bytes
  | [] => []
  | x :: xs => enc x ++ encodeList enc xs

/-- Canonical compact-size encoding (what the sibling library emits). -/
def encodeCompactSize (n : Nat) : Bytes :=
  if n < 0xFD then [n]
  else if n < 65536 then 0xFD :: leBytes 2 n
  else if n < 4294967296 then 0xFE :: leBytes 4 n
  else 0xFF :: leBytes 8 n

/-- Compact-size prefixed byte string (`CScript`, `nSolution`). -/
def encodeVarBytes (b : Bytes) : Bytes := encodeCompactSize b.length ++ b

/-- Compact-size prefixed vector of encoded elements. -/
def encodeVector (enc : α → Bytes) (l : List α) : Bytes :=
  encodeCompactSize l.length ++ encodeList enc l

/-- Two's-complement unsigned image of a signed 64-bit value
(`writeBigInt64LE`). -/
def encodeInt64 (v : Int) : Bytes := leBytes 8 ((v % 18446744073709551616).toNat)

/-- Two's-complement unsigned image of a signed 32-bit value
(`writeInt32LE`). -/
def encodeInt32 (v : Int) : Bytes := leBytes 4 ((v % 4294967296).toNat)

/-! ## Decoder correctness algebra

`DecodesTo d b v` says: wherever the byte chunk `b` sits inside the input,
running `d` at its start yields `v` and consumes exactly `b`.  This predicate
composes under `bind` and is the engine of the round-trip proofs. -/

/-- Running decoder `d` over an occurrence of `b` yields `v`, consuming
exactly `b`, regardless of surrounding bytes. -/
def DecodesTo (d : Decoder α) (b : Bytes) (v : α) : Prop :=
  ∀ pre post : Bytes,
    d (pre ++ (b ++ post)) pre.length = .ok (v, pre.length + b.length)

/-! ## Data model

Typed images of the JS classes (`ZcashOutPoint`, `ZcashTransactionIn`,
`ZcashTransactionOut`, `ZcashPHGRProof`, `ZcashJoinSplitDescription`,
`ZcashSpendDescription`, `ZcashOutputDescription`, `ZcashTransaction`,
`ZcashBlock`).  Optional fields (`null` / `undefined` in JS) are `Option`s. -/

/-- `COutPoint`: a 32-byte transaction hash plus a 32-bit output index. -/
structure OutPoint where
  hash : Bytes
  n : Nat
  deriving DecidableEq, Repr

/-- `CTxIn` (`ZcashTransactionIn`). -/
structure TxIn where
  prevout : OutPoint
  scriptSig : Bytes
  sequence : Nat
  deriving DecidableEq, Repr

/-- `CTxOut` (`ZcashTransactionOut`): `CAmount nValue; CScript scriptPubKey`. -/
structure TxOut where
  value : Int
  scriptPubKey : Bytes
  deriving DecidableEq, Repr

/-- Modelled from the spec: a compressed curve-group element is a one-byte
y-sign tag followed by the field element (32 bytes for G1, 64 for G2); the
`CompressedG1` / `CompressedG2` readers live in the class registry consumed
from the sibling library and are not under `src/`. -/
structure CompressedG1 where
  yLsb : Nat
  x : Bytes
  deriving DecidableEq, Repr

/-- Modelled from the spec: G2 element, one tag byte plus 64 bytes. -/
structure CompressedG2 where
  yLsb : Nat
  x : Bytes
  deriving DecidableEq, Repr

/-- `ZcashPHGRProof` as the JS constructor actually stores it: the
constructor assigns `this.gA = gA; this.gA = gAprime; this.gB = gB;
this.gB = gBprime; this.gC = gC; this.gC = gCprime`, so the stored `gA`,
`gB`, `gC` hold the primed elements (each a G1), the unprimed `g_A`, `g_B`
(G2), `g_C` are dropped, and `rawBytes` keeps the full 296-byte span for the
opaque round-trip. -/
structure PHGRProof where
  gA : CompressedG1
  gB : CompressedG1
  gC : CompressedG1
  gK : CompressedG1
  gH : CompressedG1
  rawBytes : Bytes
  deriving DecidableEq, Repr

/-- The JS `ZcashPHGRProof` constructor applied to the eight decoded curve
elements and the captured raw byte span (later assignments win). -/
def mkPHGRProof (_gA gAprime : CompressedG1) (_gB : CompressedG2)
    (gBprime _gC gCprime gK gH : CompressedG1) (rawBytes : Bytes) : PHGRProof :=
  { gA := gAprime, gB := gBprime, gC := gCprime, gK := gK, gH := gH,
    rawBytes := rawBytes }

/-- `libzcash::SproutProof`: a `boost::variant<PHGRProof, GrothProof>`.  In
the JS object the Groth form is a raw 192-byte `Buffer` and the PHGR form a
`ZcashPHGRProof` instance; `Buffer.isBuffer` distinguishes them. -/
inductive SproutProof where
  | groth (bytes : Bytes)
  | phgr (p : PHGRProof)
  deriving DecidableEq, Repr

/-- `JSDescription` (`ZcashJoinSplitDescription`). -/
structure JSDescription where
  vpub_oldZat : Int
  vpub_newZat : Int
  anchor : Bytes
  nullifiers : List Bytes
  commitments : List Bytes
  onetimePubKey : Bytes
  randomSeed : Bytes
  macs : List Bytes
  proof : SproutProof
  ciphertexts : List Bytes
  deriving DecidableEq, Repr

/-- `SpendDescription` (`ZcashSpendDescription`). -/
structure SpendDescription where
  cv : Bytes
  anchor : Bytes
  nullifier : Bytes
  rk : Bytes
  proof : Bytes
  spendAuthSig : Bytes
  deriving DecidableEq, Repr

/-- `OutputDescription` (`ZcashOutputDescription`). -/
structure OutputDescription where
  cv : Bytes
  cmu : Bytes
  ephemeralKey : Bytes
  encCiphertext : Bytes
  outCiphertext : Bytes
  proof : Bytes
  deriving DecidableEq, Repr

/-- `CTransaction` (`ZcashTransaction`): field order follows the JS
constructor; `rawBytes` and `txid` are computed from the decoded span. -/
structure Transaction where
  overwintered : Bool
  version : Nat
  versiongroupid : Nat
  vin : List TxIn
  vout : List TxOut
  locktime : Nat
  expiryheight : Nat
  valueBalanceZat : Option Int
  vShieldedSpend : Option (List SpendDescription)
  vShieldedOutput : Option (List OutputDescription)
  vjoinsplit : List JSDescription
  joinSplitPubKey : Option Bytes
  joinSplitSig : Option Bytes
  bindingSig : Option Bytes
  rawBytes : Bytes
  txid : Bytes
  deriving DecidableEq, Repr

/-- `CBlockHeader` (`ZcashBlock`): `tx` and `size` are absent (`undefined`)
for the header-only variant. -/
structure Block where
  version : Int
  previousblockhash : Bytes
  merkleroot : Bytes
  finalsaplingroot : Bytes
  time : Nat
  bits : Nat
  nonce : Bytes
  solution : Bytes
  hash : Bytes
  tx : Option (List Transaction)
  size : Option Nat
  deriving DecidableEq, Repr

/-- `OVERWINTER_TX_VERSION` (Transaction.js). -/
def OVERWINTER_TX_VERSION : Nat := 3

/-- `SAPLING_TX_VERSION` (Transaction.js, JoinSplitDescription.js). -/
def SAPLING_TX_VERSION : Nat := 4

/-- `OVERWINTER_VERSION_GROUP_ID` (Transaction.js). -/
def OVERWINTER_VERSION_GROUP_ID : Nat := 0x03C48270

/-- `SAPLING_VERSION_GROUP_ID` (Transaction.js). -/
def SAPLING_VERSION_GROUP_ID : Nat := 0x892F2085

/-- `NULL_HASH = Buffer.alloc(32)` (Transaction.js). -/
def NULL_HASH : Bytes := List.replicate 32 0

/-- `HEADER_BYTES` (classes/class-utils, re-exported by zcash-block).
Modelled from the spec: `HEADER_BYTES = 1487`. -/
def HEADER_BYTES : Nat := 1487

/-- `COIN` (classes/class-utils).  Modelled from the spec:
`COIN = 100_000_000`. -/
def COIN : Nat := 100000000

/-- `GENESIS_BITS = 0x1f07ffff` (Block.js). -/
def GENESIS_BITS : Nat := 0x1f07ffff

/-- `isOverwinterV3` on the (overwintered, versiongroupid, version) tag, as
used both on the decode-state and on transaction objects. -/
def isOverwinterV3 (overwintered : Bool) (versiongroupid version : Nat) : Bool :=
  overwintered && (versiongroupid == OVERWINTER_VERSION_GROUP_ID)
    && (version == OVERWINTER_TX_VERSION)

/-- `isSaplingV4` on the (overwintered, versiongroupid, version) tag. -/
def isSaplingV4 (overwintered : Bool) (versiongroupid version : Nat) : Bool :=
  overwintered && (versiongroupid == SAPLING_VERSION_GROUP_ID)
    && (version == SAPLING_TX_VERSION)

/-- `ZcashTransaction.prototype.isCoinbase`: exactly one input and its
prevout hash equals the 32 zero bytes (`NULL_HASH.equals(...)`); the prevout
index `n` is not consulted. -/
def Transaction.isCoinbase (t : Transaction) : Bool :=
  (t.vin.length == 1) &&
    (match t.vin with
     | i :: _ => i.prevout.hash == NULL_HASH
     | [] => false)

/-! ## Record decoders

Each decoder follows the `_decodePropertiesDescriptor` of its class in field
order; custom hooks are inlined where the descriptor names them. -/

/-- `COutPoint`: `uint256 hash; uint32_t n`. -/
def decodeOutPoint : Decoder OutPoint := do
  let hash ← readSlice 32
  let n ← readUInt32LE
  pure { hash := hash, n := n }

/-- `CTxIn`: `COutPoint prevout; CScript scriptSig; uint32_t nSequence`. -/
def decodeTxIn : Decoder TxIn := do
  let prevout ← decodeOutPoint
  let scriptSig ← readVarBytes
  let sequence ← readUInt32LE
  pure { prevout := prevout, scriptSig := scriptSig, sequence := sequence }

/-- `CTxOut`: `CAmount nValue; CScript scriptPubKey`. -/
def decodeTxOut : Decoder TxOut := do
  let value ← readInt64LE
  let scriptPubKey ← readVarBytes
  pure { value := value, scriptPubKey := scriptPubKey }

/-- Modelled from the spec: `CompressedG1` reader (tag byte plus 32 bytes). -/
def decodeCompressedG1 : Decoder CompressedG1 := do
  let t ← readUInt8
  let x ← readSlice 32
  pure { yLsb := t, x := x }

/-- Modelled from the spec: `CompressedG2` reader (tag byte plus 64 bytes). -/
def decodeCompressedG2 : Decoder CompressedG2 := do
  let t ← readUInt8
  let x ← readSlice 64
  pure { yLsb := t, x := x }

/-- The eight curve elements of a PHGR proof in descriptor order
(`g_A, g_A_prime, g_B, g_B_prime, g_C, g_C_prime, g_K, g_H`), fed to the
constructor together with the captured span
(`_customDecoderMarkStart` / `_customDecodeRawBytes`). -/
def decodePHGRGroups : Decoder (Bytes → PHGRProof) := do
  let gA ← decodeCompressedG1
  let gAprime ← decodeCompressedG1
  let gB ← decodeCompressedG2
  let gBprime ← decodeCompressedG1
  let gC ← decodeCompressedG1
  let gCprime ← decodeCompressedG1
  let gK ← decodeCompressedG1
  let gH ← decodeCompressedG1
  pure (mkPHGRProof gA gAprime gB gBprime gC gCprime gK gH)

/-- `PHGRProof` decode: eight elements plus the raw byte span. -/
def decodePHGRProof : Decoder PHGRProof := do
  let mkr ← captureSpan decodePHGRGroups
  pure (mkr.1 mkr.2)

/-- `_customDecodeSproutProof` (JoinSplitDescription.js): Groth when the
enclosing transaction has `overwintered && version >= SAPLING_TX_VERSION`,
PHGR otherwise.  The 192-byte `libzcash::GrothProof` width is from the
descriptor comment (`GROTH_PROOF_SIZE`). -/
def decodeSproutProof (overwintered : Bool) (version : Nat) : Decoder SproutProof := do
  if overwintered && decide (SAPLING_TX_VERSION ≤ version) then
    let b ← readSlice 192
    pure (SproutProof.groth b)
  else
    let p ← decodePHGRProof
    pure (SproutProof.phgr p)

/-- `JSDescription` decode descriptor: amounts, anchor, the fixed arrays of
two 32-byte items, the two keys, the MACs, the proof hook and the two
601-byte ciphertexts (`ZCNoteEncryption::Ciphertext`). -/
def decodeJSDescription (overwintered : Bool) (version : Nat) :
    Decoder JSDescription := do
  let vpubOld ← readInt64LE
  let vpubNew ← readInt64LE
  let anchor ← readSlice 32
  let nullifiers ← readList (readSlice 32) 2
  let commitments ← readList (readSlice 32) 2
  let onetimePubKey ← readSlice 32
  let randomSeed ← readSlice 32
  let macs ← readList (readSlice 32) 2
  let proof ← decodeSproutProof overwintered version
  let ciphertexts ← readList (readSlice 601) 2
  pure { vpub_oldZat := vpubOld, vpub_newZat := vpubNew, anchor := anchor,
         nullifiers := nullifiers, commitments := commitments,
         onetimePubKey := onetimePubKey, randomSeed := randomSeed,
         macs := macs, proof := proof, ciphertexts := ciphertexts }

/-- `SpendDescription`: `cv, anchor, nullifier, rk` (32 bytes each), the
192-byte Groth proof, the 64-byte `spend_auth_sig_t`. -/
def decodeSpendDescription : Decoder SpendDescription := do
  let cv ← readSlice 32
  let anchor ← readSlice 32
  let nullifier ← readSlice 32
  let rk ← readSlice 32
  let proof ← readSlice 192
  let spendAuthSig ← readSlice 64
  pure { cv := cv, anchor := anchor, nullifier := nullifier, rk := rk,
         proof := proof, spendAuthSig := spendAuthSig }

/-- `OutputDescription`: `cv, cm, ephemeralKey` (32 bytes each), the 580-byte
`SaplingEncCiphertext`, the 80-byte `SaplingOutCiphertext`, the 192-byte
Groth proof. -/
def decodeOutputDescription : Decoder OutputDescription := do
  let cv ← readSlice 32
  let cmu ← readSlice 32
  let ephemeralKey ← readSlice 32
  let encCiphertext ← readSlice 580
  let outCiphertext ← readSlice 80
  let proof ← readSlice 192
  pure { cv := cv, cmu := cmu, ephemeralKey := ephemeralKey,
         encCiphertext := encCiphertext, outCiphertext := outCiphertext,
         proof := proof }

/-- `_customDecodeVersionAndGroup`: read the packed 32-bit header; the high
bit is `overwintered` (`Boolean(txheader >> 31)`), the low 31 bits the
`version` (`txheader & 0x7FFFFFFF`); when overwintered read the 32-bit
`versiongroupid`, else leave it 0; then reject any overwintered combination
that is neither Overwinter v3 nor Sapling v4
(`throw new Error(...)`, message: Unknown transaction format). -/
def decodeVersionAndGroup : Decoder (Bool × Nat × Nat) := do
  let txheader ← readUInt32LE
  let overwintered := decide (2147483648 ≤ txheader)
  let version := txheader % 2147483648
  let versiongroupid ← if overwintered then readUInt32LE else pure 0
  if overwintered && !(isOverwinterV3 overwintered versiongroupid version
      || isSaplingV4 overwintered versiongroupid version) then
    dthrow CodecErr.unknownTransactionFormat
  else
    pure (overwintered, version, versiongroupid)

/-- `_customDecodeExpiryHeight`: a `uint32` exactly for Overwinter v3 /
Sapling v4, else 0. -/
def decodeExpiryHeight (overwintered : Bool) (versiongroupid version : Nat) :
    Decoder Nat :=
  if isOverwinterV3 overwintered versiongroupid version
      || isSaplingV4 overwintered versiongroupid version then readUInt32LE
  else pure 0

/-- `_customDecodeBalanceAndShielded`: under Sapling v4 the `CAmount`
balance and the two shielded vectors, else all three null. -/
def decodeBalanceAndShielded (overwintered : Bool)
    (versiongroupid version : Nat) :
    Decoder (Option Int × Option (List SpendDescription)
      × Option (List OutputDescription)) :=
  if isSaplingV4 overwintered versiongroupid version then do
    let balance ← readInt64LE
    let spends ← readVector decodeSpendDescription
    let outputs ← readVector decodeOutputDescription
    pure (some balance, some spends, some outputs)
  else
    pure ((none : Option Int), (none : Option (List SpendDescription)),
      (none : Option (List OutputDescription)))

/-- `_customDecodeJoinSplit`: for `version >= 2` the joinsplit vector, and
when non-empty the pubkey and signature. -/
def decodeJoinSplitSection (overwintered : Bool) (version : Nat) :
    Decoder (List JSDescription × Option Bytes × Option Bytes) :=
  if decide (2 ≤ version) then do
    let js ← readVector (decodeJSDescription overwintered version)
    if decide (0 < js.length) then do
      let pk ← readSlice 32
      let sig ← readSlice 64
      pure (js, some pk, some sig)
    else
      pure (js, (none : Option Bytes), (none : Option Bytes))
  else
    pure (([] : List JSDescription), (none : Option Bytes),
      (none : Option Bytes))

/-- `_customDecodeBindingSig`: the JS reads the shielded vectors out of the
accumulated properties; under Sapling v4 they are arrays, so the `getD []`
defaulting here is unreachable there. -/
def decodeBindingSigHook (overwintered : Bool) (versiongroupid version : Nat)
    (vShieldedSpend : Option (List SpendDescription))
    (vShieldedOutput : Option (List OutputDescription)) :
    Decoder (Option Bytes) :=
  if isSaplingV4 overwintered versiongroupid version
      && !((vShieldedSpend.getD []).length == 0
        && (vShieldedOutput.getD []).length == 0) then do
    let sig ← readSlice 64
    pure (some sig)
  else
    pure (none : Option Bytes)

/-- The `CTransaction` property list up to `_customDecodeBindingSig`:
`rawBytes` and `txid` are filled by the caller from the captured span. -/
def decodeTransactionFields : Decoder Transaction := do
  let vg ← decodeVersionAndGroup
  let vin ← readVector decodeTxIn
  let vout ← readVector decodeTxOut
  let locktime ← readUInt32LE
  let expiryheight ← decodeExpiryHeight vg.1 vg.2.2 vg.2.1
  let bal ← decodeBalanceAndShielded vg.1 vg.2.2 vg.2.1
  let jsp ← decodeJoinSplitSection vg.1 vg.2.1
  let bindingSig ← decodeBindingSigHook vg.1 vg.2.2 vg.2.1 bal.2.1 bal.2.2
  pure { overwintered := vg.1, version := vg.2.1,
         versiongroupid := vg.2.2, vin := vin, vout := vout,
         locktime := locktime, expiryheight := expiryheight,
         valueBalanceZat := bal.1,
         vShieldedSpend := bal.2.1, vShieldedOutput := bal.2.2,
         vjoinsplit := jsp.1, joinSplitPubKey := jsp.2.1,
         joinSplitSig := jsp.2.2, bindingSig := bindingSig,
         rawBytes := [], txid := [] }

/-- `CTransaction` decode: the fields, then `_customDecodeBytes`
(`rawBytes := absoluteSlice(txStart, end - txStart)`), then
`_customDecodeHash` (`txid := dblSha2256(rawBytes)`); the double-SHA-256 is
consumed as a primitive, here the parameter `H`. -/
def decodeTransaction (H : Bytes → Bytes) : Decoder Transaction := do
  let tr ← captureSpan decodeTransactionFields
  pure { tr.1 with rawBytes := tr.2, txid := H tr.2 }

/-- The block header fields in descriptor order (`CBlockHeader`):
`nVersion, hashPrevBlock, hashMerkleRoot, hashFinalSaplingRoot, nTime,
nBits, nNonce, nSolution`. -/
def decodeHeaderFields : Decoder (Int × Bytes × Bytes × Bytes × Nat × Nat × Bytes × Bytes) := do
  let version ← readInt32LE
  let previousblockhash ← readSlice 32
  let merkleroot ← readSlice 32
  let finalsaplingroot ← readSlice 32
  let time ← readUInt32LE
  let bits ← readUInt32LE
  let nonce ← readSlice 32
  let solution ← readVarBytes
  pure (version, previousblockhash, merkleroot, finalsaplingroot, time, bits,
    nonce, solution)

/-- `CBlockHeader` (the full block): header fields with the hash captured
over the header span (`_customDecodeHash`), then
`std::vector<CTransaction>`, then `_customDecodeSize` over the whole span. -/
def decodeBlock (H : Bytes → Bytes) : Decoder Block := do
  let r ← captureSpan (do
    let hfp ← captureSpan decodeHeaderFields
    let txs ← readVector (decodeTransaction H)
    pure (hfp.1, hfp.2, txs))
  pure { version := r.1.1.1, previousblockhash := r.1.1.2.1,
         merkleroot := r.1.1.2.2.1, finalsaplingroot := r.1.1.2.2.2.1,
         time := r.1.1.2.2.2.2.1, bits := r.1.1.2.2.2.2.2.1,
         nonce := r.1.1.2.2.2.2.2.2.1, solution := r.1.1.2.2.2.2.2.2.2,
         hash := H r.1.2.1, tx := some r.1.2.2, size := some r.2.length }

/-- `CBlockHeader__Only`: same fields, no transactions, no size. -/
def decodeBlockHeaderOnly (H : Bytes → Bytes) : Decoder Block := do
  let hfp ← captureSpan decodeHeaderFields
  pure { version := hfp.1.1, previousblockhash := hfp.1.2.1,
         merkleroot := hfp.1.2.2.1, finalsaplingroot := hfp.1.2.2.2.1,
         time := hfp.1.2.2.2.2.1, bits := hfp.1.2.2.2.2.2.1,
         nonce := hfp.1.2.2.2.2.2.2.1, solution := hfp.1.2.2.2.2.2.2.2,
         hash := H hfp.2, tx := none, size := none }

/-- `coding.decodeType(buf, name, strictLengthUsage)`: run a decoder at
position 0; with `strict` set, trailing bytes fail the decode. -/
def decodeType (d : Decoder α) (data : Bytes) (strict : Bool) :
    Except CodecErr α :=
  match d data 0 with
  | .error e => .error e
  | .ok (a, pos) => if strict && !(pos == data.length)
      then .error CodecErr.strictLengthUsage else .ok a

/-- `ZcashBlock.decode(buf, strictLengthUsage)`. -/
def ZcashBlock.decode (H : Bytes → Bytes) (data : Bytes) (strict : Bool) :
    Except CodecErr Block :=
  decodeType (decodeBlock H) data strict

/-- `ZcashBlock.decodeHeaderOnly(buf, strictLengthUsage)`. -/
def ZcashBlock.decodeHeaderOnly (H : Bytes → Bytes) (data : Bytes)
    (strict : Bool) : Except CodecErr Block :=
  decodeType (decodeBlockHeaderOnly H) data strict

/-- `ZcashTransaction.decode(buf, strictLengthUsage)`. -/
def ZcashTransaction.decode (H : Bytes → Bytes) (data : Bytes)
    (strict : Bool) : Except CodecErr Transaction :=
  decodeType (decodeTransaction H) data strict

/-! ## Record encoders

Each encoder follows the `_encodePropertiesDescriptor` (and the
`_customEncode*` hooks) of its class, emitting segments in order. -/

/-- `COutPoint` encode: hash then `uint32` n. -/
def encodeOutPoint (p : OutPoint) : Bytes := p.hash ++ leBytes 4 p.n

/-- `CTxIn` encode: prevout, script, sequence. -/
def encodeTxIn (i : TxIn) : Bytes :=
  encodeOutPoint i.prevout ++ encodeVarBytes i.scriptSig ++ leBytes 4 i.sequence

/-- `CTxOut` encode: `CAmount value; CScript scriptPubKey`. -/
def encodeTxOut (o : TxOut) : Bytes :=
  encodeInt64 o.value ++ encodeVarBytes o.scriptPubKey

/-- Modelled from the spec: the PHGR proof round-trips opaquely via its
captured raw bytes (the raw-byte capture exists so the proof can be
re-emitted verbatim; the element-wise encoder is not under `src/`). -/
def encodePHGRProof (p : PHGRProof) : Bytes := p.rawBytes

/-- `_customEncodeSproutProof`: `Buffer.isBuffer(joinsplit.proof)` selects
the 192-byte Groth branch, otherwise the PHGR branch. -/
def encodeSproutProof : SproutProof → Bytes
  | .groth b => b
  | .phgr p => encodePHGRProof p

/-- Whether `_customEncodeSproutProof` takes the Groth branch for this
joinsplit: exactly the `Buffer.isBuffer(joinsplit.proof)` test. -/
def usesGrothBranch (js : JSDescription) : Bool :=
  match js.proof with
  | .groth _ => true
  | .phgr _ => false

/-- `JSDescription` encode descriptor. -/
def encodeJSDescription (js : JSDescription) : Bytes :=
  encodeInt64 js.vpub_oldZat ++ encodeInt64 js.vpub_newZat ++ js.anchor
    ++ encodeList id js.nullifiers ++ encodeList id js.commitments
    ++ js.onetimePubKey ++ js.randomSeed ++ encodeList id js.macs
    ++ encodeSproutProof js.proof ++ encodeList id js.ciphertexts

/-- `SpendDescription` encode descriptor. -/
def encodeSpendDescription (s : SpendDescription) : Bytes :=
  s.cv ++ s.anchor ++ s.nullifier ++ s.rk ++ s.proof ++ s.spendAuthSig

/-- `OutputDescription` encode descriptor. -/
def encodeOutputDescription (o : OutputDescription) : Bytes :=
  o.cv ++ o.cmu ++ o.ephemeralKey ++ o.encCiphertext ++ o.outCiphertext
    ++ o.proof

/-- `_customEncodeVersionAndGroup`: when overwintered, a `writeInt32LE` of
`version | (1 << 31)` (whose byte image is the unsigned value
`(version mod 2^31) + 2^31`) followed by the `uint32` versiongroupid; else a
`writeUInt32LE` of version alone. -/
def encodeVersionAndGroup (t : Transaction) : Bytes :=
  if t.overwintered then
    leBytes 4 (t.version % 2147483648 + 2147483648) ++ leBytes 4 t.versiongroupid
  else
    leBytes 4 t.version

/-- `_customEncodeExpiryHeight`: a `uint32` exactly for Overwinter v3 /
Sapling v4 transactions. -/
def encodeExpiryHeight (t : Transaction) : Bytes :=
  if isOverwinterV3 t.overwintered t.versiongroupid t.version
      || isSaplingV4 t.overwintered t.versiongroupid t.version then
    leBytes 4 t.expiryheight
  else []

/-- `_customEncodeBalanceAndShielded`: under Sapling v4 the `CAmount`
balance and the two shielded vectors.  The JS dereferences the fields
directly (they are non-null for shape-consistent transactions); the `getD`
defaults here are unreachable under the well-formedness used below. -/
def encodeBalanceAndShielded (t : Transaction) : Bytes :=
  if isSaplingV4 t.overwintered t.versiongroupid t.version then
    encodeInt64 (t.valueBalanceZat.getD 0)
      ++ encodeVector encodeSpendDescription (t.vShieldedSpend.getD [])
      ++ encodeVector encodeOutputDescription (t.vShieldedOutput.getD [])
  else []

/-- `_customEncodeJoinSplit`: for `version >= 2` the joinsplit vector, and
when non-empty the 32-byte pubkey and 64-byte signature. -/
def encodeJoinSplit (t : Transaction) : Bytes :=
  if 2 ≤ t.version then
    encodeVector encodeJSDescription t.vjoinsplit
      ++ (if 0 < t.vjoinsplit.length then
            t.joinSplitPubKey.getD [] ++ t.joinSplitSig.getD []
          else [])
  else []

/-- `_customEncodeBindingSig`: emitted iff `Buffer.isBuffer(bindingSig)`
(the shape-based condition is commented out in the source). -/
def encodeBindingSig (t : Transaction) : Bytes :=
  match t.bindingSig with
  | some b => b
  | none => []

/-- `CTransaction` encode: the eight segments in descriptor order. -/
def encodeTransaction (t : Transaction) : Bytes :=
  encodeVersionAndGroup t
    ++ encodeVector encodeTxIn t.vin
    ++ encodeVector encodeTxOut t.vout
    ++ leBytes 4 t.locktime
    ++ encodeExpiryHeight t
    ++ encodeBalanceAndShielded t
    ++ encodeJoinSplit t
    ++ encodeBindingSig t

/-- The header part of the `CBlockHeader` encode descriptor (all fields up
to and including `solution`); also the whole `CBlockHeader__Only` encode. -/
def encodeBlockHeader (b : Block) : Bytes :=
  encodeInt32 b.version ++ b.previousblockhash ++ b.merkleroot
    ++ b.finalsaplingroot ++ leBytes 4 b.time ++ leBytes 4 b.bits ++ b.nonce
    ++ encodeVarBytes b.solution

/-- `ZcashBlock.prototype.encode`: header fields then, via
`_customEncodeTransactions`, the transaction vector only when `tx` is an
array. -/
def encodeBlock (b : Block) : Bytes :=
  encodeBlockHeader b
    ++ (match b.tx with
        | some l => encodeVector encodeTransaction l
        | none => [])

/-! ## Well-formedness

The shape invariants satisfied by every decoded object (and demanded of
objects fed to the encoder for the round-trip): byte fields have their wire
widths, integers fit their wire types, and the conditional sections are
present exactly as the tag dictates. -/

/-- A signed 64-bit wire value. -/
def int64Range (v : Int) : Bool :=
  decide (-9223372036854775808 ≤ v) && decide (v < 9223372036854775808)

/-- An `Option` byte field that is present with fixed width. -/
def wfOptFixed (o : Option Bytes) (n : Nat) : Bool :=
  match o with
  | some b => wfFixed b n
  | none => false

/-- The proof-type selector of the enclosing transaction
(`state.overwintered && state.version >= SAPLING_TX_VERSION`). -/
def useGroth (overwintered : Bool) (version : Nat) : Bool :=
  overwintered && decide (SAPLING_TX_VERSION ≤ version)

def wfOutPoint (p : OutPoint) : Bool :=
  wfFixed p.hash 32 && decide (p.n < 4294967296)

def wfTxIn (i : TxIn) : Bool :=
  wfOutPoint i.prevout && wfBytes i.scriptSig
    && decide (i.scriptSig.length < 18446744073709551616)
    && decide (i.sequence < 4294967296)

def wfTxOut (o : TxOut) : Bool :=
  int64Range o.value && wfBytes o.scriptPubKey
    && decide (o.scriptPubKey.length < 18446744073709551616)

def wfPHGRProof (p : PHGRProof) : Bool := wfFixed p.rawBytes 296

/-- The stored proof variant agrees with the selector of the enclosing
transaction and has its wire width. -/
def wfSproutProof (ug : Bool) : SproutProof → Bool
  | .groth b => ug && wfFixed b 192
  | .phgr p => !ug && wfPHGRProof p

def wfJSDescription (ug : Bool) (js : JSDescription) : Bool :=
  int64Range js.vpub_oldZat && int64Range js.vpub_newZat
    && wfFixed js.anchor 32
    && (js.nullifiers.length == 2) && js.nullifiers.all (fun x => wfFixed x 32)
    && (js.commitments.length == 2) && js.commitments.all (fun x => wfFixed x 32)
    && wfFixed js.onetimePubKey 32 && wfFixed js.randomSeed 32
    && (js.macs.length == 2) && js.macs.all (fun x => wfFixed x 32)
    && wfSproutProof ug js.proof
    && (js.ciphertexts.length == 2)
    && js.ciphertexts.all (fun x => wfFixed x 601)

def wfSpendDescription (s : SpendDescription) : Bool :=
  wfFixed s.cv 32 && wfFixed s.anchor 32 && wfFixed s.nullifier 32
    && wfFixed s.rk 32 && wfFixed s.proof 192 && wfFixed s.spendAuthSig 64

def wfOutputDescription (o : OutputDescription) : Bool :=
  wfFixed o.cv 32 && wfFixed o.cmu 32 && wfFixed o.ephemeralKey 32
    && wfFixed o.encCiphertext 580 && wfFixed o.outCiphertext 80
    && wfFixed o.proof 192

def wfTransaction (t : Transaction) : Bool :=
  decide (t.version < 2147483648)
    && (!t.overwintered
        || (isOverwinterV3 t.overwintered t.versiongroupid t.version
            || isSaplingV4 t.overwintered t.versiongroupid t.version))
    && (t.overwintered || (t.versiongroupid == 0))
    && decide (t.versiongroupid < 4294967296)
    && decide (t.vin.length < 18446744073709551616) && t.vin.all wfTxIn
    && decide (t.vout.length < 18446744073709551616) && t.vout.all wfTxOut
    && decide (t.locktime < 4294967296)
    && (if isOverwinterV3 t.overwintered t.versiongroupid t.version
          || isSaplingV4 t.overwintered t.versiongroupid t.version
        then decide (t.expiryheight < 4294967296)
        else t.expiryheight == 0)
    && (if isSaplingV4 t.overwintered t.versiongroupid t.version then
          (match t.valueBalanceZat with
           | some v => int64Range v
           | none => false)
          && (match t.vShieldedSpend with
              | some l => decide (l.length < 18446744073709551616)
                  && l.all wfSpendDescription
              | none => false)
          && (match t.vShieldedOutput with
              | some l => decide (l.length < 18446744073709551616)
                  && l.all wfOutputDescription
              | none => false)
        else t.valueBalanceZat.isNone && t.vShieldedSpend.isNone
          && t.vShieldedOutput.isNone)
    && (if 2 ≤ t.version then
          decide (t.vjoinsplit.length < 18446744073709551616)
            && t.vjoinsplit.all
                (wfJSDescription (useGroth t.overwintered t.version))
            && (if 0 < t.vjoinsplit.length then
                  wfOptFixed t.joinSplitPubKey 32
                    && wfOptFixed t.joinSplitSig 64
                else t.joinSplitPubKey.isNone && t.joinSplitSig.isNone)
        else t.vjoinsplit.isEmpty && t.joinSplitPubKey.isNone
          && t.joinSplitSig.isNone)
    && (if isSaplingV4 t.overwintered t.versiongroupid t.version
          && !((t.vShieldedSpend.getD []).length == 0
            && (t.vShieldedOutput.getD []).length == 0)
        then wfOptFixed t.bindingSig 64
        else t.bindingSig.isNone)

def wfBlock (b : Block) : Bool :=
  decide (-2147483648 ≤ b.version) && decide (b.version < 2147483648)
    && wfFixed b.previousblockhash 32 && wfFixed b.merkleroot 32
    && wfFixed b.finalsaplingroot 32
    && decide (b.time < 4294967296) && decide (b.bits < 4294967296)
    && wfFixed b.nonce 32
    && wfBytes b.solution && decide (b.solution.length < 18446744073709551616)
    && (match b.tx with
        | some l => decide (l.length < 18446744073709551616)
            && l.all wfTransaction
        | none => false)

/-- The value the PHGR decoder reconstructs from an existing proof object:
the eight elements re-parsed from the captured raw span (of which the JS
constructor keeps the five listed fields), with the same raw bytes.  The
re-encoding (which emits `rawBytes`) is unchanged. -/
def reconPHGRProof (p : PHGRProof) : PHGRProof :=
  { gA := { yLsb := leValue (slice p.rawBytes 33 1), x := slice p.rawBytes 34 32 },
    gB := { yLsb := leValue (slice p.rawBytes 131 1), x := slice p.rawBytes 132 32 },
    gC := { yLsb := leValue (slice p.rawBytes 197 1), x := slice p.rawBytes 198 32 },
    gK := { yLsb := leValue (slice p.rawBytes 230 1), x := slice p.rawBytes 231 32 },
    gH := { yLsb := leValue (slice p.rawBytes 263 1), x := slice p.rawBytes 264 32 },
    rawBytes := p.rawBytes }

/-- Proof field after a decode round-trip: Groth bytes unchanged, PHGR
re-parsed from its raw span. -/
def reconSproutProof : SproutProof → SproutProof
  | .groth b => .groth b
  | .phgr p => .phgr (reconPHGRProof p)

/-- JoinSplit after a decode round-trip: only the proof changes shape. -/
def reconJSDescription (js : JSDescription) : JSDescription :=
  { js with proof := reconSproutProof js.proof }

/-- Transaction after a decode round-trip: joinsplit proofs re-parsed,
`rawBytes` the exact encoded span, `txid` its double hash. -/
def reconTransaction (H : Bytes → Bytes) (t : Transaction) : Transaction :=
  { t with vjoinsplit := t.vjoinsplit.map reconJSDescription,
           rawBytes := encodeTransaction t,
           txid := H (encodeTransaction t) }

/-- Block after a decode round-trip: hash recomputed over the header span,
transactions reconstructed, size set to the full encoded length. -/
def reconBlock (H : Bytes → Bytes) (b : Block) : Block :=
  { b with hash := H (encodeBlockHeader b),
           tx := some ((b.tx.getD []).map (reconTransaction H)),
           size := some (encodeBlock b).length }

/-- A valid Zcash block byte string: the canonical serialization of a
well-formed block (what the reference node emits and accepts — the
decoder additionally tolerates non-canonical compact-size prefixes, which
no valid block contains). -/
def validBlockBytes (B : Bytes) : Prop :=
  ∃ b : Block, wfBlock b = true ∧ encodeBlock b = B

/-- 2000-10-17: smallest well-formed block used as a round-trip witness:
empty solution, a single minimal legacy v1 transaction. -/
def witnessTx : Transaction :=
  { overwintered := false, version := 1, versiongroupid := 0, vin := [],
    vout := [], locktime := 0, expiryheight := 0, valueBalanceZat := none,
    vShieldedSpend := none, vShieldedOutput := none, vjoinsplit := [],
    joinSplitPubKey := none, joinSplitSig := none, bindingSig := none,
    rawBytes := [], txid := [] }

/-- A minimal well-formed block for witnesses. -/
def witnessBlock : Block :=
  { version := 4, previousblockhash := List.replicate 32 0,
    merkleroot := List.replicate 32 0,
    finalsaplingroot := List.replicate 32 0, time := 0, bits := GENESIS_BITS,
    nonce := List.replicate 32 0, solution := [], hash := [],
    tx := some [witnessTx], size := none }

/-- A stand-in for the external double-SHA-256 primitive in witnesses. -/
def witnessHash : Bytes → Bytes := fun _ => List.replicate 32 0

/-- A concrete PHGR proof parsed from 296 copies of the byte 3. -/
def c5PHGR : PHGRProof :=
  { gA := { yLsb := 3, x := List.replicate 32 3 },
    gB := { yLsb := 3, x := List.replicate 32 3 },
    gC := { yLsb := 3, x := List.replicate 32 3 },
    gK := { yLsb := 3, x := List.replicate 32 3 },
    gH := { yLsb := 3, x := List.replicate 32 3 },
    rawBytes := List.replicate 296 3 }

/-- A legacy v1 transaction carrying a (shape-inconsistent) binding
signature, as `fromPorcelain` can produce. -/
def c4Tx : Transaction :=
  { witnessTx with bindingSig := some (List.replicate 64 1) }

/-- `targetDifficulty` (Block.js): `target = bits & 0xffffff`, then
`mov = 8 * ((bits >>> 24) - 3)` and `while (mov-- > 0) target *= 2` — the
loop doubles `max(0, mov)` times, so a negative `mov` leaves the mantissa
unscaled.  Modelled in exact rational arithmetic in place of JS floats. -/
def targetDifficulty (bits : Nat) : ℚ :=
  ((bits % 16777216 : Nat) : ℚ)
    * 2 ^ (8 * ((bits : Int) / 16777216 - 3)).toNat

/-- The spec's formula for the same quantity:
`(bits & 0xFFFFFF) × 2^(8 × ((bits >> 24) − 3))` with a genuine (possibly
negative) integer exponent. -/
def targetDifficultySpec (bits : Nat) : ℚ :=
  ((bits % 16777216 : Nat) : ℚ)
    * (2 : ℚ) ^ (8 * ((bits : Int) / 16777216 - 3))

/-- The lazily-cached `difficulty` getter: the genesis target divided by the
block's own target — a pure function of `bits`. -/
def Block.difficulty (b : Block) : ℚ :=
  targetDifficulty GENESIS_BITS / targetDifficulty b.bits

/-- A block whose compact target has a high byte below 3, where the JS
doubling loop runs zero times. -/
def c8Block : Block := { witnessBlock with bits := 1 }

/-! ## Porcelain (JSON) form: hex-string primitives

`toJSON` / `toPorcelain` render blocks as plain data with hex-string
hashes; `fromPorcelain` validates such data and rebuilds the objects.  JS
strings are modelled as `List Char`; a thrown `TypeError` / `Error` is
`none`. -/

/-- A lowercase hexadecimal digit (the `/^[0-9a-f]*$/` character class). -/
def isHexDigit (c : Char) : Bool :=
  (48 ≤ c.toNat && c.toNat ≤ 57) || (97 ≤ c.toNat && c.toNat ≤ 102)

/-- Modelled from the spec: `isHexString(str, length)` of the consumed
sibling library's `class-utils`: a string of lowercase hex digits, of
exactly `length` characters when a length is supplied (`none` models a JS
call with the length argument omitted). -/
def isHexString (s : List Char) (len : Option Nat) : Bool :=
  (match len with
   | none => true
   | some n => s.length == n) && s.all isHexDigit

/-- Numeric value of a lowercase hex digit. -/
def hexCharVal (c : Char) : Nat :=
  if c.toNat ≤ 57 then c.toNat - 48 else c.toNat - 87

/-- `Buffer.from(s, 'hex')`: consume hex digits in pairs (a trailing odd
digit is dropped, as in Node). -/
def hexToBytes : List Char → Bytes
  | c1 :: c2 :: rest => (hexCharVal c1 * 16 + hexCharVal c2) :: hexToBytes rest
  | _ => []

/-- The lowercase hex digit of a value below 16. -/
def hexDigitOf (n : Nat) : Char :=
  Char.ofNat (if n < 10 then 48 + n else 87 + n)

/-- The two hex digits of one byte. -/
def byteToHex (b : Nat) : List Char :=
  [hexDigitOf (b / 16), hexDigitOf (b % 16)]

/-- `Buffer#toString('hex')`. -/
def bytesToHex : Bytes → List Char
  | [] => []
  | b :: rest => byteToHex b ++ bytesToHex rest

/-- Modelled from the spec: `toHashHex` of the consumed sibling library —
the byte-reversed hash rendered as hex (display order). -/
def toHashHex (b : Bytes) : List Char := bytesToHex b.reverse

/-- Modelled from the spec: `fromHashHex` — hex parsed, then
byte-reversed. -/
def fromHashHex (s : List Char) : Bytes := (hexToBytes s).reverse

/-- `Number(n).toString(16)` digit loop, fuel-recursive (`fuel ≥ n`
suffices since a number has no more hex digits than its value). -/
def natToHexCore : Nat → Nat → List Char
  | 0, _ => []
  | _ + 1, 0 => []
  | fuel + 1, n + 1 =>
      natToHexCore fuel ((n + 1) / 16) ++ [hexDigitOf ((n + 1) % 16)]

/-- `Number(n).toString(16)`: minimal lowercase hex, one `'0'` for zero. -/
def natToHex (n : Nat) : List Char :=
  if n = 0 then ['0'] else natToHexCore n n

/-- `parseInt(s, 16)` on an all-hex-digit string. -/
def parseHexNat (s : List Char) : Nat :=
  s.foldl (fun acc c => acc * 16 + hexCharVal c) 0

/-- `/^0+$/.test(s)`: non-empty and all zero digits (the genesis test on
the rendered `previousblockhash`). -/
def isAllZeroHex (s : List Char) : Bool :=
  !s.isEmpty && s.all (fun c => c == '0')

/-- The porcelain form of a block (`toJSON`'s result object): hex strings
for hashes, `difficulty` from the getter, with `previousblockhash`, `size`
and `tx` only sometimes present.  The rendering of one transaction is the
type parameter `τ` (`'min'` renders txids, the default full objects);
`ZcashBlock.fromPorcelain` never reads `tx`, so every rendering behaves
alike. -/
structure BlockPorcelain (τ : Type) where
  hash : List Char
  version : Int
  merkleroot : List Char
  finalsaplingroot : List Char
  time : Nat
  nonce : List Char
  solution : List Char
  bits : List Char
  difficulty : ℚ
  previousblockhash : Option (List Char)
  size : Option Nat
  tx : Option (List τ)
  deriving DecidableEq, Repr

/-- `toJSON`'s `type` argument: `'header'`, `'min'`, or anything else. -/
inductive PorcelainMode where
  | header
  | min
  | dflt
  deriving DecidableEq, Repr

/-- The unconditional part of `ZcashBlock.prototype.toJSON`: the base
object, with `previousblockhash` left out when its display hex is all
zeroes (genesis). -/
def Block.toJSONbase (b : Block) : BlockPorcelain τ :=
  { hash := toHashHex b.hash
    version := b.version
    merkleroot := toHashHex b.merkleroot
    finalsaplingroot := toHashHex b.finalsaplingroot
    time := b.time
    nonce := toHashHex b.nonce
    solution := bytesToHex b.solution
    bits := natToHex b.bits
    difficulty := Block.difficulty b
    previousblockhash :=
      if isAllZeroHex (toHashHex b.previousblockhash) then none
      else some (toHashHex b.previousblockhash)
    size := none
    tx := none }

/-- `ZcashBlock.prototype.toJSON(_, type)`: the base object alone for
`'header'` or when `size` / `tx` are absent; otherwise `size` and the
rendered transaction list are added. -/
def Block.toJSON (renderTx : Transaction → τ) (type : PorcelainMode)
    (b : Block) : BlockPorcelain τ :=
  match type, b.size, b.tx with
  | .header, _, _ => Block.toJSONbase b
  | _, some sz, some txs =>
      { (Block.toJSONbase b : BlockPorcelain τ) with
          size := some sz, tx := some (txs.map renderTx) }
  | _, _, _ => Block.toJSONbase b

/-- `toPorcelain(type)` is `toJSON(null, type)`. -/
def Block.toPorcelain (renderTx : Transaction → τ) (type : PorcelainMode)
    (b : Block) : BlockPorcelain τ :=
  Block.toJSON renderTx type b

/-- `ZcashBlock.fromPorcelain`: validate the porcelain fields, rebuild the
header and recompute the hash over the first `HEADER_BYTES` bytes of the
re-encoding.  The transaction reconstruction is commented out in the
source, so `tx` is never read and the result carries no transactions and
no `size`; the source's `bits` check
(`typeof bits !== 'string' && !regex.test(bits)`) cannot throw on a
string operand, so no `bits` validation is modelled. -/
def ZcashBlock.fromPorcelain (H : Bytes → Bytes) (p : BlockPorcelain τ) :
    Option Block :=
  if !(match p.previousblockhash with
       | some s => isHexString s (some 64)
       | none => true) then none
  else if !isHexString p.merkleroot (some 64) then none
  else if !isHexString p.finalsaplingroot (some 64) then none
  else if !isHexString p.nonce (some 64) then none
  else if !isHexString p.solution (some 2688) then none
  else
    let blk : Block :=
      { version := p.version
        previousblockhash :=
          match p.previousblockhash with
          | some s => fromHashHex s
          | none => NULL_HASH
        merkleroot := fromHashHex p.merkleroot
        finalsaplingroot := fromHashHex p.finalsaplingroot
        time := p.time
        bits := parseHexNat p.bits
        nonce := fromHashHex p.nonce
        solution := hexToBytes p.solution
        hash := []
        tx := none
        size := none }
    some { blk with hash := H ((encodeBlock blk).take HEADER_BYTES) }

/-- The porcelain form of a `SpendDescription` (`toJSON`'s result). -/
structure SpendPorcelain where
  cv : List Char
  anchor : List Char
  nullifier : List Char
  rk : List Char
  spendAuthSig : List Char
  proof : List Char
  deriving DecidableEq, Repr

/-- `ZcashSpendDescription.fromPorcelain`: each hash field must be
64-character hex; `proof` must be 384-character hex; `spendAuthSig` is
checked with `isHexString(porcelain.spendAuthSig)` — the source passes no
length argument, although its own error message asks for a fixed-length
hex string. -/
def SpendDescription.fromPorcelain (p : SpendPorcelain) :
    Option SpendDescription :=
  if !isHexString p.cv (some 64) then none
  else if !isHexString p.anchor (some 64) then none
  else if !isHexString p.nullifier (some 64) then none
  else if !isHexString p.rk (some 64) then none
  else if !isHexString p.spendAuthSig none then none
  else if !isHexString p.proof (some 384) then none
  else some
    { cv := fromHashHex p.cv
      anchor := fromHashHex p.anchor
      nullifier := fromHashHex p.nullifier
      rk := fromHashHex p.rk
      proof := hexToBytes p.proof
      spendAuthSig := hexToBytes p.spendAuthSig }

/-- The porcelain form of a `JoinSplitDescription`. -/
structure JSPorcelain where
  vpub_oldZat : Int
  vpub_newZat : Int
  anchor : List Char
  nullifiers : List (List Char)
  commitments : List (List Char)
  onetimePubKey : List Char
  randomSeed : List Char
  macs : List (List Char)
  proof : List Char
  ciphertexts : List (List Char)
  deriving DecidableEq, Repr

/-- `ZcashJoinSplitDescription.fromPorcelain`: hashes are 64-character
hex, the two-element arrays are checked for length 2, ciphertexts for
1202-character hex; `proof` is only checked to be a hex string (no
length) and is stored with `Buffer.from(porcelain.proof, 'hex')` — always
the raw-`Buffer` (Groth) form, whatever its length (the source comments
that all proofs become GrothProof here). -/
def JSDescription.fromPorcelain (p : JSPorcelain) : Option JSDescription :=
  if !isHexString p.anchor (some 64) then none
  else if !((p.nullifiers.length == 2)
      && p.nullifiers.all (fun s => isHexString s (some 64))) then none
  else if !((p.commitments.length == 2)
      && p.commitments.all (fun s => isHexString s (some 64))) then none
  else if !isHexString p.onetimePubKey (some 64) then none
  else if !isHexString p.randomSeed (some 64) then none
  else if !((p.macs.length == 2)
      && p.macs.all (fun s => isHexString s (some 64))) then none
  else if !isHexString p.proof none then none
  else if !p.ciphertexts.all (fun s => isHexString s (some 1202)) then none
  else some
    { vpub_oldZat := p.vpub_oldZat
      vpub_newZat := p.vpub_newZat
      anchor := fromHashHex p.anchor
      nullifiers := p.nullifiers.map fromHashHex
      commitments := p.commitments.map fromHashHex
      onetimePubKey := fromHashHex p.onetimePubKey
      randomSeed := fromHashHex p.randomSeed
      macs := p.macs.map fromHashHex
      proof := SproutProof.groth (hexToBytes p.proof)
      ciphertexts := p.ciphertexts.map hexToBytes }

/-- `Buffer.isBuffer(joinsplit.proof)`: the test `_customEncodeSproutProof`
branches on — true exactly for the raw-`Buffer` (Groth) form, never a
length comparison. -/
def sproutProofIsBuffer : SproutProof → Bool
  | .groth _ => true
  | .phgr _ => false

/-- Byte length of the stored sprout proof (the raw buffer, or the PHGR
object's captured span). -/
def sproutProofLength : SproutProof → Nat
  | .groth b => b.length
  | .phgr p => p.rawBytes.length

/-- A well-formed block with a full-width (1344-byte) Equihash solution
and one transaction, as real blocks have. -/
def c2Block : Block :=
  { witnessBlock with solution := List.replicate 1344 0 }

/-- A 64-character all-zero hex string. -/
def zeros64Hex : List Char := List.replicate 64 '0'

/-- JoinSplit porcelain whose `proof` is 2 hex characters (1 byte). -/
def c6Porcelain : JSPorcelain :=
  { vpub_oldZat := 0, vpub_newZat := 0, anchor := zeros64Hex,
    nullifiers := [zeros64Hex, zeros64Hex],
    commitments := [zeros64Hex, zeros64Hex], onetimePubKey := zeros64Hex,
    randomSeed := zeros64Hex, macs := [zeros64Hex, zeros64Hex],
    proof := ['a', 'b'], ciphertexts := [] }

/-- What `JSDescription.fromPorcelain` builds from `c6Porcelain`: the
1-byte proof is stored in the raw-`Buffer` (Groth) form. -/
def c6JS : JSDescription :=
  { vpub_oldZat := 0, vpub_newZat := 0, anchor := List.replicate 32 0,
    nullifiers := [List.replicate 32 0, List.replicate 32 0],
    commitments := [List.replicate 32 0, List.replicate 32 0],
    onetimePubKey := List.replicate 32 0, randomSeed := List.replicate 32 0,
    macs := [List.replicate 32 0, List.replicate 32 0],
    proof := SproutProof.groth [171], ciphertexts := [] }

/-- Spend porcelain whose `spendAuthSig` is the 4-character hex string
`"abcd"` (2 bytes instead of 64); every other field has its correct
length. -/
def c9Porcelain : SpendPorcelain :=
  { cv := zeros64Hex, anchor := zeros64Hex, nullifier := zeros64Hex,
    rk := zeros64Hex, spendAuthSig := ['a', 'b', 'c', 'd'],
    proof := List.replicate 384 '0' }

/-- What `SpendDescription.fromPorcelain` builds from `c9Porcelain`: a
spend with a 2-byte `spendAuthSig`. -/
def c9Spend : SpendDescription :=
  { cv := List.replicate 32 0, anchor := List.replicate 32 0,
    nullifier := List.replicate 32 0, rk := List.replicate 32 0,
    proof := List.replicate 192 0, spendAuthSig := [171, 205] }

theorem leBytes_length (w n : Nat) : (leBytes w n).length = w := by
  induction w generalizing n with
  | zero => simp [leBytes]
  | succ w ih => simp [leBytes, ih]

theorem wfBytes_leBytes (w n : Nat) : wfBytes (leBytes w n) = true := by
  induction w generalizing n with
  | zero => simp [leBytes, wfBytes]
  | succ w ih =>
    simp only [leBytes, wfBytes, List.all_cons, Bool.and_eq_true, decide_eq_true_eq]
    exact ⟨Nat.mod_lt _ (by norm_num), ih _⟩

theorem leValue_leBytes (w n : Nat) (h : n < 256 ^ w) : leValue (leBytes w n) = n := by
  induction w generalizing n with
  | zero =>
    simp only [Nat.pow_zero, Nat.lt_one_iff] at h
    simp [leBytes, leValue, h]
  | succ w ih =>
    have hdiv : n / 256 < 256 ^ w := by
      rw [Nat.div_lt_iff_lt_mul (by norm_num)]
      calc n < 256 ^ (w + 1) := h
        _ = 256 ^ w * 256 := by ring
    simp only [leBytes, leValue, List.foldr_cons]
    have : leValue (leBytes w (n / 256)) = n / 256 := ih _ hdiv
    simp only [leValue] at this
    rw [this]
    omega

theorem slice_append (pre b post : Bytes) :
    slice (pre ++ (b ++ post)) pre.length b.length = b := by
  simp only [slice]
  rw [List.drop_append_of_le_length (Nat.le_refl _)]
  simp [List.take_append_of_le_length]

theorem slice_append_all (pre b : Bytes) :
    slice (pre ++ b) pre.length b.length = b := by
  have := slice_append pre b []
  simpa using this

theorem bind_eq (d : Decoder α) (f : α → Decoder β) :
    (d >>= f) = dbind d f := rfl

theorem pure_eq (a : α) : (pure a : Decoder α) = dpure a := rfl

theorem dbind_ok {d : Decoder α} {f : α → Decoder β} {data : Bytes} {pos : Nat}
    {a : α} {p' : Nat} (h : d data pos = .ok (a, p')) :
    dbind d f data pos = f a data p' := by
  simp [ZcashSpec.dbind, h]

theorem dbind_err {d : Decoder α} {f : α → Decoder β} {data : Bytes} {pos : Nat}
    {e : CodecErr} (h : d data pos = .error e) :
    dbind d f data pos = .error e := by
  simp [ZcashSpec.dbind, h]

theorem dec_pure (v : α) : DecodesTo (pure v) [] v := by
  intro pre post
  simp [pure_eq, dpure]

theorem DecodesTo.dbind {d : Decoder α} {f : α → Decoder β}
    {b₁ b₂ : Bytes} {v₁ : α} {v₂ : β}
    (h₁ : DecodesTo d b₁ v₁) (h₂ : DecodesTo (f v₁) b₂ v₂) :
    DecodesTo (dbind d f) (b₁ ++ b₂) v₂ := by
  intro pre post
  rw [show pre ++ ((b₁ ++ b₂) ++ post) = pre ++ (b₁ ++ (b₂ ++ post)) by simp]
  rw [dbind_ok (h₁ pre (b₂ ++ post))]
  have h₂' := h₂ (pre ++ b₁) post
  rw [List.append_assoc, List.length_append] at h₂'
  rw [h₂']
  simp [Nat.add_assoc]

theorem DecodesTo.bind {d : Decoder α} {f : α → Decoder β}
    {b₁ b₂ : Bytes} {v₁ : α} {v₂ : β}
    (h₁ : DecodesTo d b₁ v₁) (h₂ : DecodesTo (f v₁) b₂ v₂) :
    DecodesTo (d >>= f) (b₁ ++ b₂) v₂ := by
  rw [bind_eq]
  exact DecodesTo.dbind h₁ h₂

theorem DecodesTo.congr {d : Decoder α} {b b' : Bytes} {v v' : α}
    (h : DecodesTo d b v) (hb : b = b') (hv : v = v') :
    DecodesTo d b' v' := hb ▸ hv ▸ h

theorem dec_readSlice {b : Bytes} {n : Nat} (h : b.length = n) :
    DecodesTo (readSlice n) b b := by
  intro pre post
  subst h
  simp only [ZcashSpec.readSlice]
  have hle : pre.length + b.length ≤ (pre ++ (b ++ post)).length := by
    simp [List.length_append]
  rw [if_pos hle, slice_append]

theorem dec_readUInt8 {n : Nat} (h : n < 256) :
    DecodesTo readUInt8 (leBytes 1 n) n := by
  have h1 : DecodesTo (readSlice 1) (leBytes 1 n) (leBytes 1 n) :=
    dec_readSlice (leBytes_length 1 n)
  have h2 := DecodesTo.bind (f := fun b => pure (leValue b)) h1
    (dec_pure (leValue (leBytes 1 n)))
  refine DecodesTo.congr h2 (by simp) ?_
  exact leValue_leBytes 1 n (by simpa using h)

theorem dec_readUInt16LE {n : Nat} (h : n < 65536) :
    DecodesTo readUInt16LE (leBytes 2 n) n := by
  have h1 : DecodesTo (readSlice 2) (leBytes 2 n) (leBytes 2 n) :=
    dec_readSlice (leBytes_length 2 n)
  have h2 := DecodesTo.bind (f := fun b => pure (leValue b)) h1
    (dec_pure (leValue (leBytes 2 n)))
  refine DecodesTo.congr h2 (by simp) ?_
  exact leValue_leBytes 2 n (by norm_num; omega)

theorem dec_readUInt32LE {n : Nat} (h : n < 4294967296) :
    DecodesTo readUInt32LE (leBytes 4 n) n := by
  have h1 : DecodesTo (readSlice 4) (leBytes 4 n) (leBytes 4 n) :=
    dec_readSlice (leBytes_length 4 n)
  have h2 := DecodesTo.bind (f := fun b => pure (leValue b)) h1
    (dec_pure (leValue (leBytes 4 n)))
  refine DecodesTo.congr h2 (by simp) ?_
  exact leValue_leBytes 4 n (by norm_num; omega)

theorem dec_readUInt64LE {n : Nat} (h : n < 18446744073709551616) :
    DecodesTo readUInt64LE (leBytes 8 n) n := by
  have h1 : DecodesTo (readSlice 8) (leBytes 8 n) (leBytes 8 n) :=
    dec_readSlice (leBytes_length 8 n)
  have h2 := DecodesTo.bind (f := fun b => pure (leValue b)) h1
    (dec_pure (leValue (leBytes 8 n)))
  refine DecodesTo.congr h2 (by simp) ?_
  exact leValue_leBytes 8 n (by norm_num; omega)

theorem dec_readInt32LE {v : Int} (h₁ : -2147483648 ≤ v) (h₂ : v < 2147483648) :
    DecodesTo readInt32LE (encodeInt32 v) v := by
  have hlt : (v % 4294967296).toNat < 4294967296 := by omega
  have hd := dec_readUInt32LE hlt
  have h3 := DecodesTo.bind
    (f := fun (n : Nat) => pure (if n < 2147483648 then (n : Int) else (n : Int) - 4294967296)) hd
    (dec_pure _)
  refine DecodesTo.congr h3 (by simp [encodeInt32]) ?_
  by_cases hv : (0 : Int) ≤ v
  · rw [if_pos (by omega)]
    omega
  · rw [if_neg (by omega)]
    omega

theorem dec_readInt64LE {v : Int} (h₁ : -9223372036854775808 ≤ v)
    (h₂ : v < 9223372036854775808) :
    DecodesTo readInt64LE (encodeInt64 v) v := by
  have hlt : (v % 18446744073709551616).toNat < 18446744073709551616 := by omega
  have hd := dec_readUInt64LE hlt
  have h3 := DecodesTo.bind
    (f := fun (n : Nat) => pure (if n < 9223372036854775808 then (n : Int)
        else (n : Int) - 18446744073709551616)) hd
    (dec_pure _)
  refine DecodesTo.congr h3 (by simp [encodeInt64]) ?_
  by_cases hv : (0 : Int) ≤ v
  · rw [if_pos (by omega)]
    omega
  · rw [if_neg (by omega)]
    omega

theorem dec_readCompactSize {n : Nat} (h : n < 18446744073709551616) :
    DecodesTo readCompactSize (encodeCompactSize n) n := by
  rcases lt_or_le n 0xFD with h1 | h1
  · have hb : DecodesTo readUInt8 [n] n := by
      have hb0 := dec_readUInt8 (show n < 256 by omega)
      rwa [show leBytes 1 n = [n] by
        simp [leBytes, Nat.mod_eq_of_lt (show n < 256 by omega)]] at hb0
    have h2 := DecodesTo.bind
      (f := fun ch => if ch < 0xFD then pure ch
        else if ch = 0xFD then readUInt16LE
        else if ch = 0xFE then readUInt32LE
        else readUInt64LE) hb
      (by simp only [if_pos h1]; exact dec_pure n)
    exact DecodesTo.congr h2 (by simp [encodeCompactSize, h1]) rfl
  rcases lt_or_le n 65536 with h2 | h2
  · have hb : DecodesTo readUInt8 [0xFD] 0xFD := by
      have hb0 := dec_readUInt8 (show 0xFD < 256 by norm_num)
      rwa [show leBytes 1 0xFD = [0xFD] by simp [leBytes]] at hb0
    have h3 := DecodesTo.bind
      (f := fun ch => if ch < 0xFD then pure ch
        else if ch = 0xFD then readUInt16LE
        else if ch = 0xFE then readUInt32LE
        else readUInt64LE) hb
      (by simp only [if_neg (by norm_num : ¬ (0xFD < 0xFD)), if_pos rfl]
          exact dec_readUInt16LE h2)
    refine DecodesTo.congr h3 ?_ rfl
    simp only [encodeCompactSize, if_neg (by omega : ¬ n < 0xFD), if_pos h2]
    rfl
  rcases lt_or_le n 4294967296 with h3 | h3
  · have hb : DecodesTo readUInt8 [0xFE] 0xFE := by
      have hb0 := dec_readUInt8 (show 0xFE < 256 by norm_num)
      rwa [show leBytes 1 0xFE = [0xFE] by simp [leBytes]] at hb0
    have h4 := DecodesTo.bind
      (f := fun ch => if ch < 0xFD then pure ch
        else if ch = 0xFD then readUInt16LE
        else if ch = 0xFE then readUInt32LE
        else readUInt64LE) hb
      (by simp only [if_neg (by norm_num : ¬ (0xFE < 0xFD)),
            if_neg (by norm_num : ¬ (0xFE = 0xFD)), if_pos rfl]
          exact dec_readUInt32LE h3)
    refine DecodesTo.congr h4 ?_ rfl
    simp only [encodeCompactSize, if_neg (by omega : ¬ n < 0xFD),
      if_neg (by omega : ¬ n < 65536), if_pos h3]
    rfl
  · have hb : DecodesTo readUInt8 [0xFF] 0xFF := by
      have hb0 := dec_readUInt8 (show 0xFF < 256 by norm_num)
      rwa [show leBytes 1 0xFF = [0xFF] by simp [leBytes]] at hb0
    have h4 := DecodesTo.bind
      (f := fun ch => if ch < 0xFD then pure ch
        else if ch = 0xFD then readUInt16LE
        else if ch = 0xFE then readUInt32LE
        else readUInt64LE) hb
      (by simp only [if_neg (by norm_num : ¬ (0xFF < 0xFD)),
            if_neg (by norm_num : ¬ (0xFF = 0xFD)),
            if_neg (by norm_num : ¬ (0xFF = 0xFE))]
          exact dec_readUInt64LE h)
    refine DecodesTo.congr h4 ?_ rfl
    simp only [encodeCompactSize, if_neg (by omega : ¬ n < 0xFD),
      if_neg (by omega : ¬ n < 65536), if_neg (by omega : ¬ n < 4294967296)]
    rfl

theorem dec_readList {d : Decoder α} {e : α → Bytes} {r : α → α}
    (l : List α) (hl : ∀ x ∈ l, DecodesTo d (e x) (r x)) :
    DecodesTo (readList d l.length) (encodeList e l) (l.map r) := by
  induction l with
  | nil => exact dec_pure []
  | cons x xs ih =>
    have hx := hl x (List.mem_cons_self _ _)
    have hxs := ih (fun y hy => hl y (List.mem_cons_of_mem _ hy))
    have h1 := DecodesTo.bind (f := fun v => do
        let vs ← ZcashSpec.readList d xs.length
        pure (v :: vs)) hx
      (DecodesTo.bind (f := fun vs => pure (r x :: vs)) hxs
        (dec_pure _))
    exact DecodesTo.congr h1 (by simp [encodeList]) rfl

theorem dec_readVector {d : Decoder α} {e : α → Bytes} {r : α → α}
    (l : List α) (hlen : l.length < 18446744073709551616)
    (hl : ∀ x ∈ l, DecodesTo d (e x) (r x)) :
    DecodesTo (readVector d) (encodeVector e l) (l.map r) := by
  have h1 := DecodesTo.bind (f := fun n => ZcashSpec.readList d n)
    (dec_readCompactSize hlen) (dec_readList l hl)
  exact DecodesTo.congr h1 rfl rfl

theorem dec_readVarBytes {b : Bytes} (hlen : b.length < 18446744073709551616) :
    DecodesTo readVarBytes (encodeVarBytes b) b := by
  have h1 := DecodesTo.bind (f := fun n => ZcashSpec.readSlice n)
    (dec_readCompactSize hlen) (dec_readSlice rfl)
  exact DecodesTo.congr h1 rfl rfl

theorem dec_captureSpan {d : Decoder α} {b : Bytes} {v : α}
    (h : DecodesTo d b v) : DecodesTo (captureSpan d) b (v, b) := by
  intro pre post
  have h' := h pre post
  simp only [ZcashSpec.captureSpan, h']
  rw [Nat.add_sub_cancel_left, slice_append]

/-! ## Encode-decode round-trip lemmas

For each record: decoding its canonical encoding succeeds and returns the
record (with the PHGR proof re-parsed from its raw span, which leaves the
re-encoding unchanged). -/

theorem dec_readUInt8_bytes {b : Bytes} (h : b.length = 1) :
    DecodesTo readUInt8 b (leValue b) := by
  have hb : b = b ++ [] := by simp
  rw [show DecodesTo readUInt8 b (leValue b)
      = DecodesTo readUInt8 (b ++ []) (leValue b) by rw [← hb]]
  exact DecodesTo.bind (dec_readSlice h) (dec_pure _)

theorem dec_decodeOutPoint {p : OutPoint} (h : wfOutPoint p = true) :
    DecodesTo decodeOutPoint (encodeOutPoint p) p := by
  simp only [wfOutPoint, wfFixed, Bool.and_eq_true, beq_iff_eq,
    decide_eq_true_eq] at h
  obtain ⟨⟨hlen, _⟩, hn⟩ := h
  have hb : encodeOutPoint p = p.hash ++ (leBytes 4 p.n ++ []) := by
    simp [encodeOutPoint]
  rw [hb]
  exact DecodesTo.bind (dec_readSlice hlen)
    (DecodesTo.bind (dec_readUInt32LE hn) (dec_pure _))

theorem dec_decodeTxIn {i : TxIn} (h : wfTxIn i = true) :
    DecodesTo decodeTxIn (encodeTxIn i) i := by
  simp only [wfTxIn, Bool.and_eq_true, decide_eq_true_eq] at h
  obtain ⟨⟨⟨hp, hs⟩, hslen⟩, hseq⟩ := h
  have hb : encodeTxIn i
      = encodeOutPoint i.prevout ++ (encodeVarBytes i.scriptSig
        ++ (leBytes 4 i.sequence ++ [])) := by
    simp [encodeTxIn]
  rw [hb]
  exact DecodesTo.bind (dec_decodeOutPoint hp)
    (DecodesTo.bind (dec_readVarBytes hslen)
      (DecodesTo.bind (dec_readUInt32LE hseq) (dec_pure _)))

theorem dec_decodeTxOut {o : TxOut} (h : wfTxOut o = true) :
    DecodesTo decodeTxOut (encodeTxOut o) o := by
  simp only [wfTxOut, int64Range, Bool.and_eq_true, decide_eq_true_eq] at h
  obtain ⟨⟨⟨hlo, hhi⟩, _⟩, hslen⟩ := h
  have hb : encodeTxOut o
      = encodeInt64 o.value ++ (encodeVarBytes o.scriptPubKey ++ []) := by
    simp [encodeTxOut]
  rw [hb]
  exact DecodesTo.bind (dec_readInt64LE hlo hhi)
    (DecodesTo.bind (dec_readVarBytes hslen) (dec_pure _))

theorem dec_decodeSpendDescription {s : SpendDescription}
    (h : wfSpendDescription s = true) :
    DecodesTo decodeSpendDescription (encodeSpendDescription s) s := by
  simp only [wfSpendDescription, wfFixed, Bool.and_eq_true, beq_iff_eq] at h
  obtain ⟨⟨⟨⟨⟨⟨h1, _⟩, ⟨h2, _⟩⟩, ⟨h3, _⟩⟩, ⟨h4, _⟩⟩, ⟨h5, _⟩⟩, ⟨h6, _⟩⟩ := h
  have hb : encodeSpendDescription s
      = s.cv ++ (s.anchor ++ (s.nullifier ++ (s.rk ++ (s.proof
        ++ (s.spendAuthSig ++ []))))) := by
    simp [encodeSpendDescription]
  rw [hb]
  exact DecodesTo.bind (dec_readSlice h1)
    (DecodesTo.bind (dec_readSlice h2)
      (DecodesTo.bind (dec_readSlice h3)
        (DecodesTo.bind (dec_readSlice h4)
          (DecodesTo.bind (dec_readSlice h5)
            (DecodesTo.bind (dec_readSlice h6) (dec_pure _))))))

theorem dec_decodeOutputDescription {o : OutputDescription}
    (h : wfOutputDescription o = true) :
    DecodesTo decodeOutputDescription (encodeOutputDescription o) o := by
  simp only [wfOutputDescription, wfFixed, Bool.and_eq_true, beq_iff_eq] at h
  obtain ⟨⟨⟨⟨⟨⟨h1, _⟩, ⟨h2, _⟩⟩, ⟨h3, _⟩⟩, ⟨h4, _⟩⟩, ⟨h5, _⟩⟩, ⟨h6, _⟩⟩ := h
  have hb : encodeOutputDescription o
      = o.cv ++ (o.cmu ++ (o.ephemeralKey ++ (o.encCiphertext
        ++ (o.outCiphertext ++ (o.proof ++ []))))) := by
    simp [encodeOutputDescription]
  rw [hb]
  exact DecodesTo.bind (dec_readSlice h1)
    (DecodesTo.bind (dec_readSlice h2)
      (DecodesTo.bind (dec_readSlice h3)
        (DecodesTo.bind (dec_readSlice h4)
          (DecodesTo.bind (dec_readSlice h5)
            (DecodesTo.bind (dec_readSlice h6) (dec_pure _))))))

theorem slice_add (b : Bytes) (i j k : Nat) :
    slice b i j ++ slice b (i + j) k = slice b i (j + k) := by
  simp only [slice]
  rw [show i + j = i + j from rfl, ← List.drop_drop, List.take_add]

theorem slice_length_of_le {b : Bytes} {i j : Nat} (h : i + j ≤ b.length) :
    (slice b i j).length = j := by
  simp only [slice, List.length_take, List.length_drop]
  omega

theorem dec_decodeCompressedG1_span {t x : Bytes} (ht : t.length = 1)
    (hx : x.length = 32) :
    DecodesTo decodeCompressedG1 (t ++ x) { yLsb := leValue t, x := x } := by
  have hb : t ++ x = t ++ (x ++ []) := by simp
  rw [hb]
  exact DecodesTo.bind (dec_readUInt8_bytes ht)
    (DecodesTo.bind (dec_readSlice hx) (dec_pure _))

theorem dec_decodeCompressedG2_span {t x : Bytes} (ht : t.length = 1)
    (hx : x.length = 64) :
    DecodesTo decodeCompressedG2 (t ++ x) { yLsb := leValue t, x := x } := by
  have hb : t ++ x = t ++ (x ++ []) := by simp
  rw [hb]
  exact DecodesTo.bind (dec_readUInt8_bytes ht)
    (DecodesTo.bind (dec_readSlice hx) (dec_pure _))

theorem dec_g1_at {b : Bytes} {i : Nat} (h : i + 33 ≤ b.length) :
    DecodesTo decodeCompressedG1 (slice b i 33)
      { yLsb := leValue (slice b i 1), x := slice b (i + 1) 32 } := by
  have hsp : slice b i 33 = slice b i 1 ++ slice b (i + 1) 32 :=
    (slice_add b i 1 32).symm
  rw [hsp]
  exact dec_decodeCompressedG1_span (slice_length_of_le (by omega))
    (slice_length_of_le (by omega))

theorem dec_g2_at {b : Bytes} {i : Nat} (h : i + 65 ≤ b.length) :
    DecodesTo decodeCompressedG2 (slice b i 65)
      { yLsb := leValue (slice b i 1), x := slice b (i + 1) 64 } := by
  have hsp : slice b i 65 = slice b i 1 ++ slice b (i + 1) 64 :=
    (slice_add b i 1 64).symm
  rw [hsp]
  exact dec_decodeCompressedG2_span (slice_length_of_le (by omega))
    (slice_length_of_le (by omega))

theorem dec_decodePHGRProof {p : PHGRProof} (h : wfPHGRProof p = true) :
    DecodesTo decodePHGRProof (encodePHGRProof p) (reconPHGRProof p) := by
  simp only [wfPHGRProof, wfFixed, Bool.and_eq_true, beq_iff_eq] at h
  obtain ⟨hlen, _⟩ := h
  have hfull : slice p.rawBytes 0 296 = p.rawBytes := by
    simp only [slice, List.drop_zero]
    exact List.take_of_length_le (by omega)
  have f7 : slice p.rawBytes 230 33 ++ slice p.rawBytes 263 33
      = slice p.rawBytes 230 66 := slice_add _ 230 33 33
  have f6 : slice p.rawBytes 197 33 ++ slice p.rawBytes 230 66
      = slice p.rawBytes 197 99 := slice_add _ 197 33 66
  have f5 : slice p.rawBytes 164 33 ++ slice p.rawBytes 197 99
      = slice p.rawBytes 164 132 := slice_add _ 164 33 99
  have f4 : slice p.rawBytes 131 33 ++ slice p.rawBytes 164 132
      = slice p.rawBytes 131 165 := slice_add _ 131 33 132
  have f3 : slice p.rawBytes 66 65 ++ slice p.rawBytes 131 165
      = slice p.rawBytes 66 230 := slice_add _ 66 65 165
  have f2 : slice p.rawBytes 33 33 ++ slice p.rawBytes 66 230
      = slice p.rawBytes 33 263 := slice_add _ 33 33 230
  have f1 : slice p.rawBytes 0 33 ++ slice p.rawBytes 33 263
      = slice p.rawBytes 0 296 := slice_add _ 0 33 263
  have hnest : slice p.rawBytes 0 33 ++ (slice p.rawBytes 33 33
      ++ (slice p.rawBytes 66 65 ++ (slice p.rawBytes 131 33
      ++ (slice p.rawBytes 164 33 ++ (slice p.rawBytes 197 33
      ++ (slice p.rawBytes 230 33 ++ (slice p.rawBytes 263 33 ++ [])))))))
      = p.rawBytes := by
    rw [List.append_nil, f7, f6, f5, f4, f3, f2, f1, hfull]
  have hgroups : DecodesTo decodePHGRGroups
      (slice p.rawBytes 0 33 ++ (slice p.rawBytes 33 33
        ++ (slice p.rawBytes 66 65 ++ (slice p.rawBytes 131 33
        ++ (slice p.rawBytes 164 33 ++ (slice p.rawBytes 197 33
        ++ (slice p.rawBytes 230 33 ++ (slice p.rawBytes 263 33 ++ []))))))))
      (mkPHGRProof
        { yLsb := leValue (slice p.rawBytes 0 1), x := slice p.rawBytes 1 32 }
        { yLsb := leValue (slice p.rawBytes 33 1), x := slice p.rawBytes 34 32 }
        { yLsb := leValue (slice p.rawBytes 66 1), x := slice p.rawBytes 67 64 }
        { yLsb := leValue (slice p.rawBytes 131 1), x := slice p.rawBytes 132 32 }
        { yLsb := leValue (slice p.rawBytes 164 1), x := slice p.rawBytes 165 32 }
        { yLsb := leValue (slice p.rawBytes 197 1), x := slice p.rawBytes 198 32 }
        { yLsb := leValue (slice p.rawBytes 230 1), x := slice p.rawBytes 231 32 }
        { yLsb := leValue (slice p.rawBytes 263 1), x := slice p.rawBytes 264 32 }) :=
    DecodesTo.bind (dec_g1_at (by omega))
      (DecodesTo.bind (dec_g1_at (by omega))
        (DecodesTo.bind (dec_g2_at (by omega))
          (DecodesTo.bind (dec_g1_at (by omega))
            (DecodesTo.bind (dec_g1_at (by omega))
              (DecodesTo.bind (dec_g1_at (by omega))
                (DecodesTo.bind (dec_g1_at (by omega))
                  (DecodesTo.bind (dec_g1_at (by omega)) (dec_pure _))))))))
  have hgroups' := DecodesTo.congr hgroups hnest rfl
  have hmain : DecodesTo decodePHGRProof (p.rawBytes ++ []) (reconPHGRProof p) :=
    DecodesTo.bind (dec_captureSpan hgroups') (dec_pure _)
  exact DecodesTo.congr hmain (by simp [encodePHGRProof]) rfl

theorem dec_decodeSproutProof {o : Bool} {v : Nat} {pr : SproutProof}
    (h : wfSproutProof (useGroth o v) pr = true) :
    DecodesTo (decodeSproutProof o v) (encodeSproutProof pr)
      (reconSproutProof pr) := by
  cases pr with
  | groth b =>
    simp only [wfSproutProof, Bool.and_eq_true] at h
    obtain ⟨hg, hfix⟩ := h
    simp only [wfFixed, Bool.and_eq_true, beq_iff_eq] at hfix
    have hcond : (o && decide (SAPLING_TX_VERSION ≤ v)) = true := hg
    have hmain : DecodesTo (decodeSproutProof o v) (b ++ [])
        (SproutProof.groth b) := by
      unfold decodeSproutProof
      rw [hcond]
      simp only [if_true]
      exact DecodesTo.bind (dec_readSlice hfix.1) (dec_pure _)
    exact DecodesTo.congr hmain (by simp [encodeSproutProof]) rfl
  | phgr p =>
    simp only [wfSproutProof, Bool.and_eq_true, Bool.not_eq_true'] at h
    obtain ⟨hg, hwf⟩ := h
    have hcond : (o && decide (SAPLING_TX_VERSION ≤ v)) = false := hg
    have hmain : DecodesTo (decodeSproutProof o v) (encodePHGRProof p ++ [])
        (SproutProof.phgr (reconPHGRProof p)) := by
      unfold decodeSproutProof
      rw [hcond]
      simp only [Bool.false_eq_true, if_false]
      exact DecodesTo.bind (dec_decodePHGRProof hwf) (dec_pure _)
    exact DecodesTo.congr hmain (by simp [encodeSproutProof]) rfl

theorem dec_readList_fixed {l : List Bytes} {k n : Nat} (hk : l.length = k)
    (h : ∀ x ∈ l, x.length = n) :
    DecodesTo (readList (readSlice n) k) (encodeList id l) l := by
  have h0 := dec_readList (d := readSlice n) (e := id) (r := id) l
    (fun x hx => dec_readSlice (h x hx))
  rw [hk] at h0
  simpa using h0

theorem dec_decodeJSDescription {o : Bool} {v : Nat} {js : JSDescription}
    (h : wfJSDescription (useGroth o v) js = true) :
    DecodesTo (decodeJSDescription o v) (encodeJSDescription js)
      (reconJSDescription js) := by
  simp only [wfJSDescription, Bool.and_eq_true, beq_iff_eq, int64Range,
    decide_eq_true_eq, List.all_eq_true, wfFixed] at h
  obtain ⟨⟨⟨⟨⟨⟨⟨⟨⟨⟨⟨⟨⟨⟨hvo1, hvo2⟩, ⟨hvn1, hvn2⟩⟩, hanch⟩, hnl⟩, hnall⟩,
    hcl⟩, hcall⟩, hopk⟩, hrs⟩, hml⟩, hmall⟩, hproof⟩, hctl⟩, hctall⟩ := h
  have hnl' : ∀ x ∈ js.nullifiers, x.length = 32 := by
    intro x hx
    have h2 := hnall x hx
    simp only [Bool.and_eq_true, beq_iff_eq] at h2
    exact h2.1
  have hcl' : ∀ x ∈ js.commitments, x.length = 32 := by
    intro x hx
    have h2 := hcall x hx
    simp only [Bool.and_eq_true, beq_iff_eq] at h2
    exact h2.1
  have hml' : ∀ x ∈ js.macs, x.length = 32 := by
    intro x hx
    have h2 := hmall x hx
    simp only [Bool.and_eq_true, beq_iff_eq] at h2
    exact h2.1
  have hctl' : ∀ x ∈ js.ciphertexts, x.length = 601 := by
    intro x hx
    have h2 := hctall x hx
    simp only [Bool.and_eq_true, beq_iff_eq] at h2
    exact h2.1
  have hb : encodeJSDescription js
      = encodeInt64 js.vpub_oldZat ++ (encodeInt64 js.vpub_newZat
        ++ (js.anchor ++ (encodeList id js.nullifiers
        ++ (encodeList id js.commitments ++ (js.onetimePubKey
        ++ (js.randomSeed ++ (encodeList id js.macs
        ++ (encodeSproutProof js.proof
        ++ (encodeList id js.ciphertexts ++ []))))))))) := by
    simp [encodeJSDescription]
  rw [hb]
  exact DecodesTo.bind (dec_readInt64LE hvo1 hvo2)
    (DecodesTo.bind (dec_readInt64LE hvn1 hvn2)
      (DecodesTo.bind (dec_readSlice hanch.1)
        (DecodesTo.bind (dec_readList_fixed hnl hnl')
          (DecodesTo.bind (dec_readList_fixed hcl hcl')
            (DecodesTo.bind (dec_readSlice hopk.1)
              (DecodesTo.bind (dec_readSlice hrs.1)
                (DecodesTo.bind (dec_readList_fixed hml hml')
                  (DecodesTo.bind (dec_decodeSproutProof hproof)
                    (DecodesTo.bind (dec_readList_fixed hctl hctl')
                      (dec_pure _))))))))))

theorem dec_decodeVersionAndGroup {t : Transaction}
    (hv : t.version < 2147483648)
    (hshape : t.overwintered = true →
      (isOverwinterV3 t.overwintered t.versiongroupid t.version
        || isSaplingV4 t.overwintered t.versiongroupid t.version) = true)
    (hg0 : t.overwintered = false → t.versiongroupid = 0)
    (hglt : t.versiongroupid < 4294967296) :
    DecodesTo decodeVersionAndGroup (encodeVersionAndGroup t)
      (t.overwintered, t.version, t.versiongroupid) := by
  by_cases hov : t.overwintered = true
  · have hb : encodeVersionAndGroup t
        = leBytes 4 (t.version % 2147483648 + 2147483648)
          ++ (leBytes 4 t.versiongroupid ++ []) := by
      simp [encodeVersionAndGroup, hov]
    rw [hb, hov, show t.version = t.version from rfl]
    have hshape' := hshape hov
    rw [hov] at hshape'
    have hhdr : t.version % 2147483648 + 2147483648 < 4294967296 := by omega
    refine DecodesTo.bind (dec_readUInt32LE hhdr) ?_
    have hdec : decide (2147483648 ≤ t.version % 2147483648 + 2147483648) = true := by
      simp only [decide_eq_true_eq]
      omega
    have hmod : (t.version % 2147483648 + 2147483648) % 2147483648 = t.version := by
      omega
    simp only [hdec, hmod, if_true]
    refine DecodesTo.bind (dec_readUInt32LE hglt) ?_
    simp only [hshape', Bool.not_true, Bool.and_false, Bool.false_eq_true,
      if_false]
    exact dec_pure _
  · have hov' : t.overwintered = false := by
      simpa using hov
    have hb : encodeVersionAndGroup t
        = leBytes 4 t.version ++ ([] ++ []) := by
      simp [encodeVersionAndGroup, hov']
    rw [hb, hov', hg0 hov']
    refine DecodesTo.bind (dec_readUInt32LE (show t.version < 4294967296 by omega)) ?_
    have hdec : decide (2147483648 ≤ t.version) = false := by
      simp only [decide_eq_false_iff_not]
      omega
    have hmod : t.version % 2147483648 = t.version := Nat.mod_eq_of_lt hv
    simp only [hdec, hmod, Bool.false_eq_true, if_false, Bool.false_and]
    exact DecodesTo.bind (dec_pure 0) (dec_pure _)

theorem dec_readVector_id {d : Decoder α} {enc : α → Bytes}
    (l : List α) (hlen : l.length < 18446744073709551616)
    (hl : ∀ x ∈ l, DecodesTo d (enc x) x) :
    DecodesTo (readVector d) (encodeVector enc l) l := by
  have h0 := dec_readVector (r := fun x => x) l hlen hl
  simpa using h0

theorem dec_expiryStep {c : Bool} {e : Nat}
    (h : (if c then decide (e < 4294967296) else (e == 0)) = true) :
    DecodesTo (if c then readUInt32LE else pure 0)
      (if c then leBytes 4 e else []) e := by
  cases c with
  | true =>
    simp only [if_true, decide_eq_true_eq] at h ⊢
    exact dec_readUInt32LE h
  | false =>
    simp only [Bool.false_eq_true, if_false, beq_iff_eq] at h ⊢
    rw [h]
    exact dec_pure 0

theorem dec_decodeExpiryHeight {t : Transaction}
    (h : (if isOverwinterV3 t.overwintered t.versiongroupid t.version
          || isSaplingV4 t.overwintered t.versiongroupid t.version
        then decide (t.expiryheight < 4294967296)
        else (t.expiryheight == 0)) = true) :
    DecodesTo
      (decodeExpiryHeight t.overwintered t.versiongroupid t.version)
      (encodeExpiryHeight t) t.expiryheight := by
  unfold decodeExpiryHeight encodeExpiryHeight
  exact dec_expiryStep h

theorem dec_balanceStep {t : Transaction}
    (h : (if isSaplingV4 t.overwintered t.versiongroupid t.version then
          (match t.valueBalanceZat with
           | some v => int64Range v
           | none => false)
          && (match t.vShieldedSpend with
              | some l => decide (l.length < 18446744073709551616)
                  && l.all wfSpendDescription
              | none => false)
          && (match t.vShieldedOutput with
              | some l => decide (l.length < 18446744073709551616)
                  && l.all wfOutputDescription
              | none => false)
        else t.valueBalanceZat.isNone && t.vShieldedSpend.isNone
          && t.vShieldedOutput.isNone) = true) :
    DecodesTo
      (decodeBalanceAndShielded t.overwintered t.versiongroupid t.version)
      (encodeBalanceAndShielded t)
      (t.valueBalanceZat, t.vShieldedSpend, t.vShieldedOutput) := by
  unfold decodeBalanceAndShielded
  by_cases hs : isSaplingV4 t.overwintered t.versiongroupid t.version = true
  · simp only [hs, if_true] at h ⊢
    obtain ⟨⟨hbal, hss⟩, hso⟩ := by
      simpa only [Bool.and_eq_true] using h
    match hvb : t.valueBalanceZat, hvs : t.vShieldedSpend,
        hvo : t.vShieldedOutput with
    | some v, some sl, some ol =>
      rw [hvb] at hbal
      rw [hvs] at hss
      rw [hvo] at hso
      simp only [int64Range, Bool.and_eq_true, decide_eq_true_eq,
        List.all_eq_true] at hbal hss hso
      have hb : encodeBalanceAndShielded t
          = encodeInt64 v ++ (encodeVector encodeSpendDescription sl
            ++ (encodeVector encodeOutputDescription ol ++ [])) := by
        simp [encodeBalanceAndShielded, hs, hvb, hvs, hvo]
      rw [hb]
      exact DecodesTo.bind (dec_readInt64LE hbal.1 hbal.2)
        (DecodesTo.bind
          (dec_readVector_id sl hss.1
            (fun x hx => dec_decodeSpendDescription (hss.2 x hx)))
          (DecodesTo.bind
            (dec_readVector_id ol hso.1
              (fun x hx => dec_decodeOutputDescription (hso.2 x hx)))
            (dec_pure _)))
    | some _, some _, none => rw [hvo] at hso; exact absurd hso (by simp)
    | some _, none, _ => rw [hvs] at hss; exact absurd hss (by simp)
    | none, _, _ => rw [hvb] at hbal; exact absurd hbal (by simp)
  · have hs' : isSaplingV4 t.overwintered t.versiongroupid t.version = false := by
      simpa using hs
    simp only [hs', Bool.false_eq_true, if_false, Bool.and_eq_true,
      Option.isNone_iff_eq_none] at h ⊢
    obtain ⟨⟨h1, h2⟩, h3⟩ := h
    have hb : encodeBalanceAndShielded t = [] := by
      simp [encodeBalanceAndShielded, hs']
    rw [hb, h1, h2, h3]
    exact dec_pure _

theorem dec_joinSplitStep {t : Transaction}
    (h : (if 2 ≤ t.version then
          decide (t.vjoinsplit.length < 18446744073709551616)
            && t.vjoinsplit.all
                (wfJSDescription (useGroth t.overwintered t.version))
            && (if 0 < t.vjoinsplit.length then
                  wfOptFixed t.joinSplitPubKey 32
                    && wfOptFixed t.joinSplitSig 64
                else t.joinSplitPubKey.isNone && t.joinSplitSig.isNone)
        else t.vjoinsplit.isEmpty && t.joinSplitPubKey.isNone
          && t.joinSplitSig.isNone) = true) :
    DecodesTo
      (decodeJoinSplitSection t.overwintered t.version)
      (encodeJoinSplit t)
      (t.vjoinsplit.map reconJSDescription, t.joinSplitPubKey,
        t.joinSplitSig) := by
  unfold decodeJoinSplitSection
  by_cases hv2 : 2 ≤ t.version
  · simp only [if_pos hv2, Bool.and_eq_true] at h
    obtain ⟨⟨hlen, hall⟩, htail⟩ := h
    simp only [decide_eq_true_eq] at hlen
    simp only [List.all_eq_true] at hall
    have hjsvec : DecodesTo
        (readVector (decodeJSDescription t.overwintered t.version))
        (encodeVector encodeJSDescription t.vjoinsplit)
        (t.vjoinsplit.map reconJSDescription) :=
      dec_readVector (r := reconJSDescription) t.vjoinsplit hlen
        (fun x hx => dec_decodeJSDescription (hall x hx))
    simp only [decide_eq_true_eq, if_pos hv2]
    by_cases hne : 0 < t.vjoinsplit.length
    · simp only [if_pos hne, Bool.and_eq_true, wfOptFixed] at htail
      match hpk : t.joinSplitPubKey, hsg : t.joinSplitSig with
      | some pk, some sig =>
        rw [hpk] at htail
        rw [hsg] at htail
        simp only [wfFixed, Bool.and_eq_true, beq_iff_eq] at htail
        have hb : encodeJoinSplit t
            = encodeVector encodeJSDescription t.vjoinsplit
              ++ (pk ++ (sig ++ [])) := by
          simp [encodeJoinSplit, hv2, hne, hpk, hsg]
        rw [hb]
        refine DecodesTo.bind hjsvec ?_
        have hprop : 0 < (List.map reconJSDescription t.vjoinsplit).length := by
          simpa using hne
        simp only [hprop, if_true]
        exact DecodesTo.bind (dec_readSlice htail.1.1)
          (DecodesTo.bind (dec_readSlice htail.2.1) (dec_pure _))
      | some _, none => rw [hsg] at htail; exact absurd htail (by simp)
      | none, _ => rw [hpk] at htail; exact absurd htail (by simp)
    · simp only [if_neg hne, Bool.and_eq_true,
        Option.isNone_iff_eq_none] at htail
      obtain ⟨hpk, hsg⟩ := htail
      have hb : encodeJoinSplit t
          = encodeVector encodeJSDescription t.vjoinsplit ++ ([] ++ []) := by
        simp [encodeJoinSplit, hv2, hne]
      rw [hb, hpk, hsg]
      refine DecodesTo.bind hjsvec ?_
      have hprop : ¬ 0 < (List.map reconJSDescription t.vjoinsplit).length := by
        simpa using hne
      simp only [hprop, if_false]
      exact DecodesTo.bind (dec_pure _) (dec_pure _)
  · simp only [if_neg hv2, Bool.and_eq_true, Option.isNone_iff_eq_none,
      List.isEmpty_iff] at h
    obtain ⟨⟨hjs, hpk⟩, hsg⟩ := h
    have hdec : decide (2 ≤ t.version) = false := by
      simpa using hv2
    have hb : encodeJoinSplit t = [] := by
      simp [encodeJoinSplit, hv2]
    rw [hb, hjs, hpk, hsg]
    simp only [hdec, Bool.false_eq_true, if_false, List.map_nil]
    exact dec_pure _

theorem dec_bindingStep {t : Transaction}
    (h : (if isSaplingV4 t.overwintered t.versiongroupid t.version
          && !((t.vShieldedSpend.getD []).length == 0
            && (t.vShieldedOutput.getD []).length == 0)
        then wfOptFixed t.bindingSig 64
        else t.bindingSig.isNone) = true) :
    DecodesTo
      (decodeBindingSigHook t.overwintered t.versiongroupid t.version
        t.vShieldedSpend t.vShieldedOutput)
      (encodeBindingSig t) t.bindingSig := by
  unfold decodeBindingSigHook
  by_cases hc : (isSaplingV4 t.overwintered t.versiongroupid t.version
      && !((t.vShieldedSpend.getD []).length == 0
        && (t.vShieldedOutput.getD []).length == 0)) = true
  · simp only [hc, if_true, wfOptFixed] at h ⊢
    match hbs : t.bindingSig with
    | some sig =>
      rw [hbs] at h
      simp only [wfFixed, Bool.and_eq_true, beq_iff_eq] at h
      have hb : encodeBindingSig t = sig ++ [] := by
        simp [encodeBindingSig, hbs]
      rw [hb]
      exact DecodesTo.bind (dec_readSlice h.1) (dec_pure _)
    | none => rw [hbs] at h; exact absurd h (by simp)
  · have hc' : (isSaplingV4 t.overwintered t.versiongroupid t.version
        && !((t.vShieldedSpend.getD []).length == 0
          && (t.vShieldedOutput.getD []).length == 0)) = false := by
      simpa using hc
    simp only [hc', Bool.false_eq_true, if_false,
      Option.isNone_iff_eq_none] at h ⊢
    have hb : encodeBindingSig t = [] := by
      simp [encodeBindingSig, h]
    rw [hb, h]
    exact dec_pure _

theorem dec_decodeTransactionFields {t : Transaction}
    (h : wfTransaction t = true) :
    DecodesTo decodeTransactionFields (encodeTransaction t)
      { t with vjoinsplit := t.vjoinsplit.map reconJSDescription,
               rawBytes := [], txid := [] } := by
  simp only [wfTransaction, Bool.and_eq_true] at h
  obtain ⟨⟨⟨⟨⟨⟨⟨⟨⟨⟨⟨⟨h1, h2⟩, h3⟩, h4⟩, h5⟩, h6⟩, h7⟩, h8⟩, h9⟩, h10⟩,
    h11⟩, h12⟩, h13⟩ := h
  simp only [decide_eq_true_eq] at h1 h4 h5 h7 h9
  simp only [List.all_eq_true] at h6 h8
  have hshape : t.overwintered = true →
      (isOverwinterV3 t.overwintered t.versiongroupid t.version
        || isSaplingV4 t.overwintered t.versiongroupid t.version) = true := by
    intro ho
    simpa [ho] using h2
  have hg0 : t.overwintered = false → t.versiongroupid = 0 := by
    intro ho
    simpa [ho] using h3
  have hb : encodeTransaction t
      = encodeVersionAndGroup t ++ (encodeVector encodeTxIn t.vin
        ++ (encodeVector encodeTxOut t.vout ++ (leBytes 4 t.locktime
        ++ (encodeExpiryHeight t ++ (encodeBalanceAndShielded t
        ++ (encodeJoinSplit t ++ (encodeBindingSig t ++ []))))))) := by
    simp [encodeTransaction]
  rw [hb]
  refine DecodesTo.bind (dec_decodeVersionAndGroup h1 hshape hg0 h4) ?_
  refine DecodesTo.bind
    (dec_readVector_id t.vin h5 (fun x hx => dec_decodeTxIn (h6 x hx))) ?_
  refine DecodesTo.bind
    (dec_readVector_id t.vout h7 (fun x hx => dec_decodeTxOut (h8 x hx))) ?_
  refine DecodesTo.bind (dec_readUInt32LE h9) ?_
  refine DecodesTo.bind (dec_decodeExpiryHeight h10) ?_
  refine DecodesTo.bind (dec_balanceStep h11) ?_
  refine DecodesTo.bind (dec_joinSplitStep h12) ?_
  have h13' : (if isSaplingV4 t.overwintered t.versiongroupid t.version
        && !((t.vShieldedSpend.getD []).length == 0
          && (t.vShieldedOutput.getD []).length == 0)
      then wfOptFixed t.bindingSig 64
      else t.bindingSig.isNone) = true := by
    simpa only [Bool.and_eq_true] using h13
  refine DecodesTo.bind (dec_bindingStep h13') ?_
  exact dec_pure _

theorem dec_decodeTransaction (H : Bytes → Bytes) {t : Transaction}
    (h : wfTransaction t = true) :
    DecodesTo (decodeTransaction H) (encodeTransaction t)
      (reconTransaction H t) := by
  have hcap := dec_captureSpan (dec_decodeTransactionFields h)
  have hmain : DecodesTo (decodeTransaction H) (encodeTransaction t ++ [])
      (reconTransaction H t) := DecodesTo.bind hcap (dec_pure _)
  exact DecodesTo.congr hmain (by simp) rfl

theorem encodeSproutProof_recon (pr : SproutProof) :
    encodeSproutProof (reconSproutProof pr) = encodeSproutProof pr := by
  cases pr <;>
    simp [reconSproutProof, encodeSproutProof, encodePHGRProof, reconPHGRProof]

theorem encodeJSDescription_recon (js : JSDescription) :
    encodeJSDescription (reconJSDescription js) = encodeJSDescription js := by
  simp only [reconJSDescription, encodeJSDescription, encodeSproutProof_recon]

theorem encodeList_recon (l : List JSDescription) :
    encodeList encodeJSDescription (l.map reconJSDescription)
      = encodeList encodeJSDescription l := by
  induction l with
  | nil => rfl
  | cons x xs ih => simp [encodeList, ih, encodeJSDescription_recon]

theorem encodeTransaction_recon (H : Bytes → Bytes) (t : Transaction) :
    encodeTransaction (reconTransaction H t) = encodeTransaction t := by
  simp only [encodeTransaction, reconTransaction, encodeVersionAndGroup,
    encodeExpiryHeight, encodeBalanceAndShielded, encodeJoinSplit,
    encodeBindingSig, encodeVector, encodeList_recon, List.length_map]

theorem dec_decodeHeaderFields {b : Block}
    (hv1 : -2147483648 ≤ b.version) (hv2 : b.version < 2147483648)
    (hprev : b.previousblockhash.length = 32)
    (hmr : b.merkleroot.length = 32) (hfsr : b.finalsaplingroot.length = 32)
    (ht : b.time < 4294967296) (hbits : b.bits < 4294967296)
    (hnonce : b.nonce.length = 32)
    (hsol : b.solution.length < 18446744073709551616) :
    DecodesTo decodeHeaderFields (encodeBlockHeader b)
      (b.version, b.previousblockhash, b.merkleroot, b.finalsaplingroot,
        b.time, b.bits, b.nonce, b.solution) := by
  have hb : encodeBlockHeader b
      = encodeInt32 b.version ++ (b.previousblockhash ++ (b.merkleroot
        ++ (b.finalsaplingroot ++ (leBytes 4 b.time ++ (leBytes 4 b.bits
        ++ (b.nonce ++ (encodeVarBytes b.solution ++ []))))))) := by
    simp [encodeBlockHeader]
  rw [hb]
  exact DecodesTo.bind (dec_readInt32LE hv1 hv2)
    (DecodesTo.bind (dec_readSlice hprev)
      (DecodesTo.bind (dec_readSlice hmr)
        (DecodesTo.bind (dec_readSlice hfsr)
          (DecodesTo.bind (dec_readUInt32LE ht)
            (DecodesTo.bind (dec_readUInt32LE hbits)
              (DecodesTo.bind (dec_readSlice hnonce)
                (DecodesTo.bind (dec_readVarBytes hsol) (dec_pure _))))))))

theorem dec_decodeBlock (H : Bytes → Bytes) {b : Block}
    (h : wfBlock b = true) :
    DecodesTo (decodeBlock H) (encodeBlock b) (reconBlock H b) := by
  simp only [wfBlock, Bool.and_eq_true] at h
  obtain ⟨⟨⟨⟨⟨⟨⟨⟨⟨⟨g1, g2⟩, g3⟩, g4⟩, g5⟩, g6⟩, g7⟩, g8⟩, g9⟩, g10⟩, g11⟩ := h
  simp only [decide_eq_true_eq] at g1 g2 g6 g7 g10
  simp only [wfFixed, Bool.and_eq_true, beq_iff_eq] at g3 g4 g5 g8
  match htx : b.tx with
  | none =>
    rw [htx] at g11
    exact absurd g11 (by simp)
  | some l =>
    rw [htx] at g11
    simp only [Bool.and_eq_true, decide_eq_true_eq, List.all_eq_true] at g11
    have hhdr := dec_decodeHeaderFields (b := b) g1 g2 g3.1 g4.1 g5.1 g6 g7
      g8.1 g10
    have htxs : DecodesTo (readVector (decodeTransaction H))
        (encodeVector encodeTransaction l)
        (l.map (reconTransaction H)) :=
      dec_readVector (r := reconTransaction H) l g11.1
        (fun x hx => dec_decodeTransaction H (g11.2 x hx))
    have hinner : DecodesTo (do
        let hfp ← captureSpan decodeHeaderFields
        let txs ← readVector (decodeTransaction H)
        pure (hfp.1, hfp.2, txs))
        (encodeBlockHeader b ++ (encodeVector encodeTransaction l ++ []))
        ((b.version, b.previousblockhash, b.merkleroot, b.finalsaplingroot,
          b.time, b.bits, b.nonce, b.solution), encodeBlockHeader b,
          l.map (reconTransaction H)) :=
      DecodesTo.bind (dec_captureSpan hhdr)
        (DecodesTo.bind htxs (dec_pure _))
    have hinner' := DecodesTo.congr hinner
      (show encodeBlockHeader b ++ (encodeVector encodeTransaction l ++ [])
          = encodeBlockHeader b ++ encodeVector encodeTransaction l by simp)
      rfl
    have hcap := dec_captureSpan hinner'
    have hmain : DecodesTo (decodeBlock H)
        ((encodeBlockHeader b ++ encodeVector encodeTransaction l) ++ [])
        { version := b.version, previousblockhash := b.previousblockhash,
          merkleroot := b.merkleroot, finalsaplingroot := b.finalsaplingroot,
          time := b.time, bits := b.bits, nonce := b.nonce,
          solution := b.solution, hash := H (encodeBlockHeader b),
          tx := some (l.map (reconTransaction H)),
          size := some (encodeBlockHeader b
            ++ encodeVector encodeTransaction l).length } :=
      DecodesTo.bind hcap (dec_pure _)
    exact DecodesTo.congr hmain (by simp [encodeBlock, htx])
      (by simp [reconBlock, encodeBlock, htx])

theorem encodeList_tx_recon (H : Bytes → Bytes) (l : List Transaction) :
    encodeList encodeTransaction (l.map (reconTransaction H))
      = encodeList encodeTransaction l := by
  induction l with
  | nil => rfl
  | cons x xs ih => simp [encodeList, ih, encodeTransaction_recon]

theorem encodeBlock_recon (H : Bytes → Bytes) {b : Block}
    {l : List Transaction} (htx : b.tx = some l) :
    encodeBlock (reconBlock H b) = encodeBlock b := by
  simp [encodeBlock, reconBlock, encodeBlockHeader, htx, encodeVector,
    List.length_map, encodeList_tx_recon]

/-- C1: for every valid Zcash block byte string `B` (a canonical
serialization of a well-formed block), `Block.decode` succeeds on `B` and
re-encoding the decoded block yields exactly `B`: encode is the exact
inverse of decode on valid block byte strings, for any hash primitive `H`
and either strictness setting. -/
theorem c1_decode_encode_roundtrip (H : Bytes → Bytes) (strict : Bool)
    (B : Bytes) (h : validBlockBytes B) :
    ∃ blk : Block, ZcashBlock.decode H B strict = .ok blk
      ∧ encodeBlock blk = B := by
  obtain ⟨b, hwf, rfl⟩ := h
  have htxsome : ∃ l, b.tx = some l := by
    simp only [wfBlock, Bool.and_eq_true] at hwf
    match htx : b.tx with
    | none => rw [htx] at hwf; exact absurd hwf.2 (by simp)
    | some l => exact ⟨l, rfl⟩
  obtain ⟨l, htx⟩ := htxsome
  refine ⟨reconBlock H b, ?_, encodeBlock_recon H htx⟩
  have hrun := dec_decodeBlock H hwf [] []
  simp only [List.nil_append, List.append_nil, List.length_nil] at hrun
  simp [ZcashBlock.decode, decodeType, hrun]

/-- C1 witness: a concrete valid block byte string round-trips. -/
theorem c1_decode_encode_roundtrip_witness :
    validBlockBytes (encodeBlock witnessBlock)
      ∧ ∃ blk : Block,
          ZcashBlock.decode witnessHash (encodeBlock witnessBlock) true
            = .ok blk
          ∧ encodeBlock blk = encodeBlock witnessBlock :=
  ⟨⟨witnessBlock, by decide, rfl⟩,
    c1_decode_encode_roundtrip witnessHash true (encodeBlock witnessBlock)
      ⟨witnessBlock, by decide, rfl⟩⟩

theorem decodeVersionAndGroup_illegal {pre rest : Bytes} {hdr g : Nat}
    (h32 : hdr < 4294967296) (hov : 2147483648 ≤ hdr) (hg : g < 4294967296)
    (hleg : (isOverwinterV3 true g (hdr % 2147483648)
      || isSaplingV4 true g (hdr % 2147483648)) = false) :
    decodeVersionAndGroup (pre ++ (leBytes 4 hdr ++ (leBytes 4 g ++ rest)))
      pre.length = .error CodecErr.unknownTransactionFormat := by
  have h1 := dec_readUInt32LE h32 pre (leBytes 4 g ++ rest)
  rw [leBytes_length] at h1
  have h2 := dec_readUInt32LE hg (pre ++ leBytes 4 hdr) rest
  rw [List.append_assoc] at h2
  rw [List.length_append, leBytes_length] at h2
  rw [leBytes_length] at h2
  have hdec : decide (2147483648 ≤ hdr) = true := by
    simpa using hov
  unfold decodeVersionAndGroup
  rw [bind_eq, dbind_ok h1]
  simp only [hdec, if_true]
  rw [bind_eq, dbind_ok h2]
  simp only [hleg, Bool.not_false, Bool.true_and, if_true]
  rfl

theorem decodeTransactionFields_error {data : Bytes} {pos : Nat} {e : CodecErr}
    (h : decodeVersionAndGroup data pos = .error e) :
    decodeTransactionFields data pos = .error e := by
  unfold decodeTransactionFields
  rw [bind_eq, dbind_err h]

theorem decodeTransaction_error (H : Bytes → Bytes) {data : Bytes} {pos : Nat}
    {e : CodecErr} (h : decodeVersionAndGroup data pos = .error e) :
    decodeTransaction H data pos = .error e := by
  have h1 := decodeTransactionFields_error h
  have h2 : captureSpan decodeTransactionFields data pos = .error e := by
    simp [captureSpan, h1]
  unfold decodeTransaction
  rw [bind_eq, dbind_err h2]

theorem decodeVersionAndGroup_ok_shape {data : Bytes} {pos : Nat} {o : Bool}
    {v g pos' : Nat}
    (h : decodeVersionAndGroup data pos = .ok ((o, v, g), pos'))
    (ho : o = true) :
    (g = OVERWINTER_VERSION_GROUP_ID ∧ v = OVERWINTER_TX_VERSION)
      ∨ (g = SAPLING_VERSION_GROUP_ID ∧ v = SAPLING_TX_VERSION) := by
  unfold decodeVersionAndGroup at h
  rw [bind_eq] at h
  match hread : readUInt32LE data pos with
  | .error e => rw [dbind_err hread] at h; exact absurd h (by simp)
  | .ok (hdr, p1) =>
    rw [dbind_ok hread] at h
    simp only [bind_eq] at h
    match hdec : decide (2147483648 ≤ hdr) with
    | false =>
      simp only [hdec, Bool.false_eq_true, if_false, Bool.false_and] at h
      simp only [ZcashSpec.dbind, pure_eq, dpure, Except.ok.injEq,
        Prod.mk.injEq] at h
      obtain ⟨⟨hfo, _, _⟩, _⟩ := h
      rw [ho] at hfo
      exact absurd hfo (by simp)
    | true =>
      simp only [hdec, if_true] at h
      match hread2 : readUInt32LE data p1 with
      | .error e => rw [dbind_err hread2] at h; exact absurd h (by simp)
      | .ok (g2, p2) =>
        rw [dbind_ok hread2] at h
        match hcond : (true && !(isOverwinterV3 true g2 (hdr % 2147483648)
            || isSaplingV4 true g2 (hdr % 2147483648))) with
        | true =>
          rw [hcond] at h
          simp only [if_true] at h
          exact absurd h (by simp [dthrow])
        | false =>
          rw [hcond] at h
          simp only [Bool.false_eq_true, if_false, pure_eq, dpure,
            Except.ok.injEq, Prod.mk.injEq] at h
          obtain ⟨⟨_, hv, hg⟩, _⟩ := h
          simp only [Bool.true_and, Bool.not_eq_false', Bool.or_eq_true,
            isOverwinterV3, isSaplingV4, Bool.and_eq_true, beq_iff_eq,
            Bool.true_and] at hcond
          subst hv
          subst hg
          rcases hcond with ⟨hcg, hcv⟩ | ⟨hcg, hcv⟩
          · exact Or.inl ⟨hcg, hcv⟩
          · exact Or.inr ⟨hcg, hcv⟩

/-- C3: an overwintered transaction header decodes past the version/group
step only for the two legal (versiongroupid, version) pairs — Overwinter v3
`(0x03C48270, 3)` and Sapling v4 `(0x892F2085, 4)` — and for every other
overwintered combination the transaction decode fails with the
Unknown-transaction-format error immediately after the version/group bytes,
whatever bytes follow (so no further field is consumed). -/
theorem c3_overwinter_version_group :
    (∀ (H : Bytes → Bytes) (pre rest : Bytes) (hdr g : Nat),
        hdr < 4294967296 → 2147483648 ≤ hdr → g < 4294967296 →
        ¬((g = OVERWINTER_VERSION_GROUP_ID
            ∧ hdr % 2147483648 = OVERWINTER_TX_VERSION)
          ∨ (g = SAPLING_VERSION_GROUP_ID
            ∧ hdr % 2147483648 = SAPLING_TX_VERSION)) →
        decodeTransaction H (pre ++ (leBytes 4 hdr ++ (leBytes 4 g ++ rest)))
          pre.length = .error CodecErr.unknownTransactionFormat)
    ∧ (∀ (data : Bytes) (pos : Nat) (o : Bool) (v g pos' : Nat),
        decodeVersionAndGroup data pos = .ok ((o, v, g), pos') → o = true →
        (g = OVERWINTER_VERSION_GROUP_ID ∧ v = OVERWINTER_TX_VERSION)
          ∨ (g = SAPLING_VERSION_GROUP_ID ∧ v = SAPLING_TX_VERSION)) := by
  constructor
  · intro H pre rest hdr g h32 hov hg hleg
    refine decodeTransaction_error H (decodeVersionAndGroup_illegal h32 hov hg ?_)
    simp only [isOverwinterV3, isSaplingV4, Bool.true_and, Bool.or_eq_false_iff,
      Bool.and_eq_false_iff, beq_eq_false_iff_ne, ne_eq]
    constructor
    · by_cases hcg : g = OVERWINTER_VERSION_GROUP_ID
      · right
        intro hcv
        exact hleg (Or.inl ⟨hcg, hcv⟩)
      · left
        exact hcg
    · by_cases hcg : g = SAPLING_VERSION_GROUP_ID
      · right
        intro hcv
        exact hleg (Or.inr ⟨hcg, hcv⟩)
      · left
        exact hcg
  · intro data pos o v g pos' h ho
    exact decodeVersionAndGroup_ok_shape h ho

/-- C3 witness: the illegal overwintered pair (groupid 0, version 5) fails
with the format error whatever follows, and a successful overwintered
decode (Sapling v4) has a legal pair. -/
theorem c3_overwinter_version_group_witness :
    decodeTransaction witnessHash
      (([] : Bytes) ++ (leBytes 4 2147483653 ++ (leBytes 4 0 ++ [7, 7, 7])))
      0 = .error CodecErr.unknownTransactionFormat
    ∧ ((0x892F2085 = OVERWINTER_VERSION_GROUP_ID
          ∧ 4 = OVERWINTER_TX_VERSION)
        ∨ (0x892F2085 = SAPLING_VERSION_GROUP_ID
          ∧ 4 = SAPLING_TX_VERSION)) :=
  ⟨c3_overwinter_version_group.1 witnessHash [] [7, 7, 7] 2147483653 0
      (by decide) (by decide) (by decide) (by decide),
    c3_overwinter_version_group.2
      (leBytes 4 2147483652 ++ leBytes 4 0x892F2085) 0 true 4 0x892F2085 8
      rfl rfl⟩

/-! ## Decoder inversion lemmas

Forward destructors for successful decoder runs, used to read properties off
arbitrary decodes (not only canonical ones). -/

theorem dbind_inv {d : Decoder α} {f : α → Decoder β} {data : Bytes}
    {pos : Nat} {r : β × Nat} (h : dbind d f data pos = .ok r) :
    ∃ a p', d data pos = .ok (a, p') ∧ f a data p' = .ok r := by
  unfold dbind at h
  match hd : d data pos with
  | .error e =>
    simp only [hd] at h
    exact absurd h (by simp)
  | .ok (a, p') =>
    simp only [hd] at h
    exact ⟨a, p', rfl, h⟩

theorem bind_inv {d : Decoder α} {f : α → Decoder β} {data : Bytes}
    {pos : Nat} {r : β × Nat} (h : (d >>= f) data pos = .ok r) :
    ∃ a p', d data pos = .ok (a, p') ∧ f a data p' = .ok r := by
  rw [bind_eq] at h
  exact dbind_inv h

theorem dpure_inv {a : α} {data : Bytes} {pos : Nat} {r : α × Nat}
    (h : (pure a : Decoder α) data pos = .ok r) : r = (a, pos) := by
  simp only [pure_eq, dpure, Except.ok.injEq] at h
  exact h.symm

theorem readSlice_ok {n : Nat} {data : Bytes} {pos : Nat} {b : Bytes}
    {p' : Nat} (h : readSlice n data pos = .ok (b, p')) :
    b = slice data pos n ∧ p' = pos + n ∧ pos + n ≤ data.length := by
  unfold readSlice at h
  by_cases hle : pos + n ≤ data.length
  · rw [if_pos hle] at h
    simp only [Except.ok.injEq, Prod.mk.injEq] at h
    exact ⟨h.1.symm, h.2.symm, hle⟩
  · rw [if_neg hle] at h
    exact absurd h (by simp)

theorem readUInt8_ok {data : Bytes} {pos : Nat} {v p' : Nat}
    (h : readUInt8 data pos = .ok (v, p')) : p' = pos + 1 := by
  obtain ⟨b, q, hb, hp⟩ := bind_inv h
  obtain ⟨_, hq, _⟩ := readSlice_ok hb
  have := dpure_inv hp
  simp only [Prod.mk.injEq] at this
  omega

theorem captureSpan_inv {d : Decoder α} {data : Bytes} {pos : Nat}
    {a : α} {b : Bytes} {p' : Nat}
    (h : captureSpan d data pos = .ok ((a, b), p')) :
    d data pos = .ok (a, p') ∧ b = slice data pos (p' - pos) := by
  unfold captureSpan at h
  match hd : d data pos with
  | .error e =>
    simp only [hd] at h
    exact absurd h (by simp)
  | .ok (a0, q) =>
    simp only [hd, Except.ok.injEq, Prod.mk.injEq] at h
    obtain ⟨⟨ha, hb⟩, hq⟩ := h
    subst ha
    subst hq
    exact ⟨rfl, hb.symm⟩

theorem decodeCompressedG1_ok {data : Bytes} {pos : Nat} {e : CompressedG1}
    {p' : Nat} (h : decodeCompressedG1 data pos = .ok (e, p')) :
    p' = pos + 33 := by
  obtain ⟨t, q, ht, h2⟩ := bind_inv h
  obtain ⟨x, q2, hx, h3⟩ := bind_inv h2
  obtain ⟨_, hq2, _⟩ := readSlice_ok hx
  have h4 := dpure_inv h3
  simp only [Prod.mk.injEq] at h4
  have := readUInt8_ok ht
  omega

theorem decodeCompressedG2_ok {data : Bytes} {pos : Nat} {e : CompressedG2}
    {p' : Nat} (h : decodeCompressedG2 data pos = .ok (e, p')) :
    p' = pos + 65 := by
  obtain ⟨t, q, ht, h2⟩ := bind_inv h
  obtain ⟨x, q2, hx, h3⟩ := bind_inv h2
  obtain ⟨_, hq2, _⟩ := readSlice_ok hx
  have h4 := dpure_inv h3
  simp only [Prod.mk.injEq] at h4
  have := readUInt8_ok ht
  omega

theorem decodePHGRGroups_ok {data : Bytes} {pos : Nat}
    {mk : Bytes → PHGRProof} {p' : Nat}
    (h : decodePHGRGroups data pos = .ok (mk, p')) :
    (∃ e1 e2 e3 e4 e5 e6 e7 e8, mk = mkPHGRProof e1 e2 e3 e4 e5 e6 e7 e8)
      ∧ p' = pos + 296 := by
  obtain ⟨e1, q1, h1, h⟩ := bind_inv h
  obtain ⟨e2, q2, h2, h⟩ := bind_inv h
  obtain ⟨e3, q3, h3, h⟩ := bind_inv h
  obtain ⟨e4, q4, h4, h⟩ := bind_inv h
  obtain ⟨e5, q5, h5, h⟩ := bind_inv h
  obtain ⟨e6, q6, h6, h⟩ := bind_inv h
  obtain ⟨e7, q7, h7, h⟩ := bind_inv h
  obtain ⟨e8, q8, h8, h⟩ := bind_inv h
  have hp := dpure_inv h
  simp only [Prod.mk.injEq] at hp
  have k1 := decodeCompressedG1_ok h1
  have k2 := decodeCompressedG1_ok h2
  have k3 := decodeCompressedG2_ok h3
  have k4 := decodeCompressedG1_ok h4
  have k5 := decodeCompressedG1_ok h5
  have k6 := decodeCompressedG1_ok h6
  have k7 := decodeCompressedG1_ok h7
  have k8 := decodeCompressedG1_ok h8
  refine ⟨⟨e1, e2, e3, e4, e5, e6, e7, e8, hp.1⟩, ?_⟩
  omega

theorem decodePHGRProof_ok {data : Bytes} {pos : Nat} {ph : PHGRProof}
    {p' : Nat} (h : decodePHGRProof data pos = .ok (ph, p')) :
    ph.rawBytes = slice data pos (p' - pos) ∧ p' = pos + 296 := by
  obtain ⟨mkr, q, hcap, hp⟩ := bind_inv h
  obtain ⟨mk, braw⟩ := mkr
  obtain ⟨hgr, hb⟩ := captureSpan_inv hcap
  obtain ⟨⟨e1, e2, e3, e4, e5, e6, e7, e8, hmk⟩, hq⟩ := decodePHGRGroups_ok hgr
  have h4 := dpure_inv hp
  simp only [Prod.mk.injEq] at h4
  obtain ⟨hph, hq'⟩ := h4
  subst hph
  subst hq'
  subst hmk
  subst hq
  exact ⟨by simpa [mkPHGRProof] using hb, rfl⟩

/-- C5: decoding the JoinSplit proof field reads a 192-byte Groth proof
exactly when the enclosing transaction is overwintered with version at
least `SAPLING_TX_VERSION` (4); otherwise it parses a structured PHGR proof
— eight compressed curve-group elements spanning 296 bytes — capturing the
raw span for the opaque round-trip. -/
theorem c5_sprout_proof_selection (o : Bool) (v : Nat) (data : Bytes)
    (pos : Nat) (p : SproutProof) (pos' : Nat)
    (h : decodeSproutProof o v data pos = .ok (p, pos')) :
    ((o = true ∧ SAPLING_TX_VERSION ≤ v) →
        p = SproutProof.groth (slice data pos 192) ∧ pos' = pos + 192)
    ∧ (¬(o = true ∧ SAPLING_TX_VERSION ≤ v) →
        ∃ ph : PHGRProof, p = SproutProof.phgr ph
          ∧ ph.rawBytes = slice data pos (pos' - pos)
          ∧ pos' = pos + 296) := by
  constructor
  · rintro ⟨ho, hv⟩
    have hcond : (o && decide (SAPLING_TX_VERSION ≤ v)) = true := by
      simp [ho, hv]
    unfold decodeSproutProof at h
    rw [hcond] at h
    simp only [if_true] at h
    obtain ⟨b, q, hb, hp⟩ := bind_inv h
    obtain ⟨hslice, hq, _⟩ := readSlice_ok hb
    have hp2 := dpure_inv hp
    simp only [Prod.mk.injEq] at hp2
    subst hslice
    subst hq
    exact ⟨hp2.1, hp2.2⟩
  · intro hn
    have hcond : (o && decide (SAPLING_TX_VERSION ≤ v)) = false := by
      cases o with
      | false => simp
      | true =>
        simp only [Bool.true_and, decide_eq_false_iff_not]
        intro hv
        exact hn ⟨rfl, hv⟩
    unfold decodeSproutProof at h
    rw [hcond] at h
    simp only [Bool.false_eq_true, if_false] at h
    obtain ⟨ph, q, hph, hp⟩ := bind_inv h
    have hp2 := dpure_inv hp
    simp only [Prod.mk.injEq] at hp2
    obtain ⟨hpv, hq⟩ := hp2
    subst hq
    obtain ⟨hraw, hpos⟩ := decodePHGRProof_ok hph
    exact ⟨ph, hpv, hraw, hpos⟩

set_option maxRecDepth 10000 in
/-- C5 witness: both branches exercised on concrete bytes. -/
theorem c5_sprout_proof_selection_witness :
    (SproutProof.groth (List.replicate 192 7)
        = SproutProof.groth (slice (List.replicate 192 7) 0 192)
      ∧ (192 : Nat) = 0 + 192)
    ∧ (∃ ph : PHGRProof, SproutProof.phgr c5PHGR = SproutProof.phgr ph
        ∧ ph.rawBytes = slice (List.replicate 296 3) 0 (296 - 0)
        ∧ (296 : Nat) = 0 + 296) :=
  ⟨(c5_sprout_proof_selection true 4 (List.replicate 192 7) 0
      (SproutProof.groth (List.replicate 192 7)) 192 rfl).1
      ⟨rfl, by decide⟩,
    (c5_sprout_proof_selection false 1 (List.replicate 296 3) 0
      (SproutProof.phgr c5PHGR) 296 rfl).2 (by simp)⟩

theorem readList_mem {d : Decoder α} {n : Nat} {data : Bytes} {pos : Nat}
    {l : List α} {p' : Nat} (h : readList d n data pos = .ok (l, p')) :
    ∀ x ∈ l, ∃ q q', d data q = .ok (x, q') := by
  induction n generalizing pos l p' with
  | zero =>
    have hp := dpure_inv h
    simp only [Prod.mk.injEq] at hp
    intro x hx
    rw [hp.1] at hx
    exact absurd hx (by simp)
  | succ n ih =>
    obtain ⟨a, q, ha, h2⟩ := bind_inv h
    obtain ⟨xs, q2, hxs, h3⟩ := bind_inv h2
    have hp := dpure_inv h3
    simp only [Prod.mk.injEq] at hp
    intro x hx
    rw [hp.1] at hx
    rcases List.mem_cons.mp hx with hxa | hxs'
    · exact ⟨pos, q, hxa ▸ ha⟩
    · exact ih hxs x hxs'

theorem readVector_mem {d : Decoder α} {data : Bytes} {pos : Nat}
    {l : List α} {p' : Nat} (h : readVector d data pos = .ok (l, p')) :
    ∀ x ∈ l, ∃ q q', d data q = .ok (x, q') := by
  obtain ⟨n, q, _, h2⟩ := bind_inv h
  exact readList_mem h2

theorem decodeType_inv {d : Decoder α} {data : Bytes} {strict : Bool}
    {a : α} (h : decodeType d data strict = .ok a) :
    ∃ p', d data 0 = .ok (a, p') := by
  unfold decodeType at h
  match hd : d data 0 with
  | .error e =>
    simp only [hd] at h
    exact absurd h (by simp)
  | .ok (a0, q) =>
    simp only [hd] at h
    by_cases hs : (strict && !(q == data.length)) = true
    · rw [if_pos hs] at h
      exact absurd h (by simp)
    · rw [if_neg hs] at h
      simp only [Except.ok.injEq] at h
      exact ⟨q, by rw [h]⟩

theorem decodeTransaction_ok (H : Bytes → Bytes) {data : Bytes} {pos : Nat}
    {t : Transaction} {pos' : Nat}
    (h : decodeTransaction H data pos = .ok (t, pos')) :
    t.rawBytes = slice data pos (pos' - pos) ∧ t.txid = H t.rawBytes := by
  obtain ⟨tr, q, hcap, hp⟩ := bind_inv h
  obtain ⟨t0, braw⟩ := tr
  obtain ⟨_, hb⟩ := captureSpan_inv hcap
  have hp2 := dpure_inv hp
  simp only [Prod.mk.injEq] at hp2
  obtain ⟨ht, hq⟩ := hp2
  subst hq
  subst hb
  rw [ht]
  exact ⟨rfl, rfl⟩

theorem decodeBlock_tx_inv (H : Bytes → Bytes) {data : Bytes} {pos : Nat}
    {blk : Block} {p' : Nat} (h : decodeBlock H data pos = .ok (blk, p')) :
    ∃ txs, blk.tx = some txs
      ∧ ∀ tx ∈ txs, ∃ q q', decodeTransaction H data q = .ok (tx, q') := by
  obtain ⟨r, q, hcap, hp⟩ := bind_inv h
  obtain ⟨rv, braw⟩ := r
  obtain ⟨hinner, _⟩ := captureSpan_inv hcap
  obtain ⟨hfp, q1, _, h2⟩ := bind_inv hinner
  obtain ⟨txs, q2, htxs, h3⟩ := bind_inv h2
  have hp3 := dpure_inv h3
  simp only [Prod.mk.injEq] at hp3
  have hpv := dpure_inv hp
  simp only [Prod.mk.injEq] at hpv
  refine ⟨txs, ?_, readVector_mem htxs⟩
  rw [hpv.1, hp3.1]

/-- C7: every transaction of a decoded block carries as `rawBytes` the
contiguous byte span of the input that its decode consumed — from its
start position to its end position — and its `txid` is the hash primitive
(`dblSha2256`) applied to exactly those bytes. -/
theorem c7_transaction_rawbytes_txid (H : Bytes → Bytes) (strict : Bool)
    (B : Bytes) (blk : Block) (txs : List Transaction)
    (hdec : ZcashBlock.decode H B strict = .ok blk)
    (htx : blk.tx = some txs) :
    ∀ tx ∈ txs, ∃ pos pos',
      decodeTransaction H B pos = .ok (tx, pos')
      ∧ tx.rawBytes = slice B pos (pos' - pos)
      ∧ tx.txid = H tx.rawBytes := by
  obtain ⟨p', hblk⟩ := decodeType_inv hdec
  obtain ⟨txs', htx', hmem⟩ := decodeBlock_tx_inv H hblk
  rw [htx] at htx'
  have heq : txs = txs' := by
    injection htx'
  intro tx htxmem
  obtain ⟨q, q', hrun⟩ := hmem tx (heq ▸ htxmem)
  obtain ⟨hraw, hid⟩ := decodeTransaction_ok H hrun
  exact ⟨q, q', hrun, hraw, hid⟩

set_option maxRecDepth 100000 in
/-- C7 witness: the single transaction of the concrete witness block. -/
theorem c7_transaction_rawbytes_txid_witness :
    ∃ pos pos',
      decodeTransaction witnessHash (encodeBlock witnessBlock) pos
        = .ok (reconTransaction witnessHash witnessTx, pos')
      ∧ (reconTransaction witnessHash witnessTx).rawBytes
          = slice (encodeBlock witnessBlock) pos (pos' - pos)
      ∧ (reconTransaction witnessHash witnessTx).txid
          = witnessHash (reconTransaction witnessHash witnessTx).rawBytes :=
  c7_transaction_rawbytes_txid witnessHash true (encodeBlock witnessBlock)
    (reconBlock witnessHash witnessBlock)
    [reconTransaction witnessHash witnessTx] rfl rfl
    (reconTransaction witnessHash witnessTx) (List.mem_singleton.mpr rfl)

theorem decodeBindingSigHook_inv {o : Bool} {g v : Nat}
    {ss : Option (List SpendDescription)}
    {so : Option (List OutputDescription)} {data : Bytes} {pos : Nat}
    {r : Option Bytes} {p' : Nat}
    (h : decodeBindingSigHook o g v ss so data pos = .ok (r, p')) :
    r ≠ none ↔ (isSaplingV4 o g v
      && !((ss.getD []).length == 0 && (so.getD []).length == 0)) = true := by
  unfold decodeBindingSigHook at h
  by_cases hc : (isSaplingV4 o g v
      && !((ss.getD []).length == 0 && (so.getD []).length == 0)) = true
  · rw [if_pos hc] at h
    obtain ⟨sig, q, _, hp⟩ := bind_inv h
    have hp2 := dpure_inv hp
    simp only [Prod.mk.injEq] at hp2
    rw [hp2.1]
    constructor
    · intro _
      exact hc
    · intro _
      simp
  · rw [if_neg hc] at h
    have hp2 := dpure_inv h
    simp only [Prod.mk.injEq] at hp2
    rw [hp2.1]
    constructor
    · intro hne
      exact absurd rfl hne
    · intro hcc
      exact absurd hcc hc

theorem decodeTransactionFields_bindingSig {data : Bytes} {pos : Nat}
    {t : Transaction} {p' : Nat}
    (h : decodeTransactionFields data pos = .ok (t, p')) :
    t.bindingSig ≠ none ↔ (isSaplingV4 t.overwintered t.versiongroupid
      t.version && !((t.vShieldedSpend.getD []).length == 0
        && (t.vShieldedOutput.getD []).length == 0)) = true := by
  unfold decodeTransactionFields at h
  obtain ⟨vg, q1, _, h⟩ := bind_inv h
  obtain ⟨vin, q2, _, h⟩ := bind_inv h
  obtain ⟨vout, q3, _, h⟩ := bind_inv h
  obtain ⟨lk, q4, _, h⟩ := bind_inv h
  obtain ⟨eh, q5, _, h⟩ := bind_inv h
  obtain ⟨bal, q6, _, h⟩ := bind_inv h
  obtain ⟨jsp, q7, _, h⟩ := bind_inv h
  obtain ⟨bsig, q8, hbs, h⟩ := bind_inv h
  have hp := dpure_inv h
  simp only [Prod.mk.injEq] at hp
  rw [hp.1]
  dsimp only
  exact decodeBindingSigHook_inv hbs

theorem decodeTransaction_bindingSig (H : Bytes → Bytes) {data : Bytes}
    {pos : Nat} {t : Transaction} {pos' : Nat}
    (h : decodeTransaction H data pos = .ok (t, pos')) :
    t.bindingSig ≠ none ↔ (isSaplingV4 t.overwintered t.versiongroupid
      t.version && !((t.vShieldedSpend.getD []).length == 0
        && (t.vShieldedOutput.getD []).length == 0)) = true := by
  obtain ⟨tr, q, hcap, hp⟩ := bind_inv h
  obtain ⟨t0, braw⟩ := tr
  obtain ⟨hfields, _⟩ := captureSpan_inv hcap
  have hp2 := dpure_inv hp
  simp only [Prod.mk.injEq] at hp2
  rw [hp2.1]
  dsimp only
  exact decodeTransactionFields_bindingSig hfields

/-- C4 (amended): the encoder emits the stored `bindingSig` bytes exactly
when the field holds a buffer (`Buffer.isBuffer`), regardless of the
transaction's shape; for every transaction produced by the decoder the
stored field is non-null exactly under the decode-hook condition (Sapling
v4 with at least one non-empty shielded vector), so on decoded
transactions the two presence rules coincide. -/
theorem c4_bindingsig_encode :
    (∀ (t : Transaction) (b : Bytes), t.bindingSig = some b →
        encodeBindingSig t = b)
    ∧ (∀ t : Transaction, t.bindingSig = none → encodeBindingSig t = [])
    ∧ (∀ (H : Bytes → Bytes) (data : Bytes) (pos : Nat) (t : Transaction)
        (pos' : Nat), decodeTransaction H data pos = .ok (t, pos') →
        (t.bindingSig ≠ none ↔ (isSaplingV4 t.overwintered t.versiongroupid
          t.version && !((t.vShieldedSpend.getD []).length == 0
            && (t.vShieldedOutput.getD []).length == 0)) = true)) := by
  refine ⟨?_, ?_, ?_⟩
  · intro t b hb
    simp [encodeBindingSig, hb]
  · intro t hb
    simp [encodeBindingSig, hb]
  · intro H data pos t pos' h
    exact decodeTransaction_bindingSig H h

/-- C4 counterexample: the encoder emits 64 bindingSig bytes for a
transaction the decode hook would never read one for (not Sapling v4, no
shielded data), refuting emitted-iff-the-decode-hook-would-read. -/
theorem c4_counterexample :
    encodeBindingSig c4Tx = List.replicate 64 1
    ∧ encodeBindingSig c4Tx ≠ []
    ∧ (isSaplingV4 c4Tx.overwintered c4Tx.versiongroupid c4Tx.version
        && !((c4Tx.vShieldedSpend.getD []).length == 0
          && (c4Tx.vShieldedOutput.getD []).length == 0)) = false :=
  ⟨rfl, by decide, rfl⟩

/-- C4 witness: concrete instantiations of all three amended parts. -/
theorem c4_bindingsig_encode_witness :
    encodeBindingSig c4Tx = List.replicate 64 1
    ∧ encodeBindingSig witnessTx = []
    ∧ ((reconTransaction witnessHash witnessTx).bindingSig ≠ none
        ↔ (isSaplingV4 (reconTransaction witnessHash witnessTx).overwintered
            (reconTransaction witnessHash witnessTx).versiongroupid
            (reconTransaction witnessHash witnessTx).version
          && !(((reconTransaction witnessHash witnessTx).vShieldedSpend.getD
              []).length == 0
            && ((reconTransaction witnessHash
              witnessTx).vShieldedOutput.getD []).length == 0)) = true) :=
  ⟨c4_bindingsig_encode.1 c4Tx (List.replicate 64 1) rfl,
    c4_bindingsig_encode.2.1 witnessTx rfl,
    c4_bindingsig_encode.2.2 witnessHash (encodeTransaction witnessTx) 0
      (reconTransaction witnessHash witnessTx)
      (encodeTransaction witnessTx).length
      (by
        have hrun := dec_decodeTransaction witnessHash
          (t := witnessTx) (by decide) [] []
        simpa using hrun)⟩

/-- C10: `isCoinbase` holds exactly when `vin` is a single input whose
prevout hash is the 32-byte zero value (`NULL_HASH`); the prevout index
`n` is unconstrained, and any transaction with two or more inputs is never
coinbase. -/
theorem c10_is_coinbase (t : Transaction) :
    t.isCoinbase = true
      ↔ ∃ i : TxIn, t.vin = [i] ∧ i.prevout.hash = NULL_HASH := by
  unfold Transaction.isCoinbase
  match htv : t.vin with
  | [] => simp
  | [i] => simp
  | i :: j :: rest => simp

/-- C8 (amended): the difficulty accessor is
`targetDifficulty(0x1f07ffff) / targetDifficulty(bits)` and is a pure
function of `bits`; the code's `targetDifficulty` agrees with the spec's
`(bits & 0xFFFFFF) × 2^(8 × ((bits >> 24) − 3))` whenever `(bits >> 24) ≥ 3`,
but for `(bits >> 24) < 3` the doubling loop runs zero times and the code
returns the bare mantissa `bits & 0xFFFFFF` (the exponent is clamped to 0,
not negative). -/
theorem c8_difficulty :
    (∀ blk : Block, Block.difficulty blk
        = targetDifficulty GENESIS_BITS / targetDifficulty blk.bits)
    ∧ (∀ b b' : Block, b.bits = b'.bits →
        Block.difficulty b = Block.difficulty b')
    ∧ (∀ bits : Nat, 3 ≤ bits / 16777216 →
        targetDifficulty bits = targetDifficultySpec bits)
    ∧ (∀ bits : Nat, bits / 16777216 < 3 →
        targetDifficulty bits = ((bits % 16777216 : Nat) : ℚ)) := by
  refine ⟨fun blk => rfl, ?_, ?_, ?_⟩
  · intro b b' hb
    simp [Block.difficulty, hb]
  · intro bits h3
    have hdiv : ((bits : Int) / 16777216) = ((bits / 16777216 : Nat) : Int) :=
      (Int.ofNat_tdiv bits 16777216).symm
    have he : (0 : Int) ≤ 8 * ((bits : Int) / 16777216 - 3) := by
      rw [hdiv]
      omega
    unfold targetDifficulty targetDifficultySpec
    rw [← zpow_natCast (2 : ℚ), Int.toNat_of_nonneg he]
  · intro bits h3
    have hdiv : ((bits : Int) / 16777216) = ((bits / 16777216 : Nat) : Int) :=
      (Int.ofNat_tdiv bits 16777216).symm
    have he : (8 * ((bits : Int) / 16777216 - 3)).toNat = 0 := by
      rw [hdiv]
      omega
    unfold targetDifficulty
    rw [he]
    ring

/-- C8 witness: the amended parts at concrete inputs. -/
theorem c8_difficulty_witness :
    (Block.difficulty witnessBlock
      = targetDifficulty GENESIS_BITS / targetDifficulty witnessBlock.bits)
    ∧ (3 ≤ GENESIS_BITS / 16777216
        ∧ targetDifficulty GENESIS_BITS = targetDifficultySpec GENESIS_BITS)
    ∧ ((1 : Nat) / 16777216 < 3
        ∧ targetDifficulty 1 = (((1 : Nat) % 16777216 : Nat) : ℚ)) :=
  ⟨c8_difficulty.1 witnessBlock,
    ⟨by norm_num [GENESIS_BITS],
      c8_difficulty.2.2.1 GENESIS_BITS (by norm_num [GENESIS_BITS])⟩,
    ⟨by norm_num, c8_difficulty.2.2.2 1 (by norm_num)⟩⟩

/-- C8 counterexample: at `bits = 1` the accessor differs from the spec's
formula-by-negative-exponent reading (the code yields
`targetDifficulty(0x1f07ffff)`, the formula `targetDifficulty(0x1f07ffff)
× 2^24`), refuting the claim that the formula equality covers
`(bits >> 24) < 3`. -/
theorem c8_counterexample :
    Block.difficulty c8Block
      ≠ targetDifficultySpec GENESIS_BITS / targetDifficultySpec c8Block.bits
    ∧ c8Block.bits / 16777216 < 3 := by
  have hb : c8Block.bits = 1 := rfl
  have hl : Block.difficulty c8Block = 524287 * 2 ^ 224 := by
    norm_num [Block.difficulty, targetDifficulty, GENESIS_BITS, c8Block,
      witnessBlock]
    rw [show ((-24 : Int)).toNat = 0 from rfl,
      show ((224 : Int)).toNat = 224 from rfl]
    norm_num
  have hsg : targetDifficultySpec GENESIS_BITS = 524287 * 2 ^ (224 : Nat) := by
    unfold targetDifficultySpec
    rw [show (8 * ((GENESIS_BITS : Int) / 16777216 - 3)) = ((224 : Nat) : Int)
      by decide]
    rw [zpow_natCast]
    norm_num [GENESIS_BITS]
  have hs2 : targetDifficultySpec 1 = ((2 : ℚ) ^ (24 : Nat))⁻¹ := by
    unfold targetDifficultySpec
    rw [show (8 * (((1 : Nat) : Int) / 16777216 - 3)) = -((24 : Nat) : Int)
      by decide]
    rw [zpow_neg, zpow_natCast]
    norm_num
  constructor
  · rw [hl, hb, hsg, hs2, div_eq_mul_inv, inv_inv]
    norm_num
  · rw [hb]
    norm_num

theorem hexDigitOf_val {m : Nat} (h : m < 16) :
    hexCharVal (hexDigitOf m) = m := by
  interval_cases m <;> decide

theorem hexDigitOf_isHexDigit {m : Nat} (h : m < 16) :
    isHexDigit (hexDigitOf m) = true := by
  interval_cases m <;> decide

theorem hexDigitOf_eq_zero {m : Nat} (h : m < 16) :
    (hexDigitOf m == '0') = (m == 0) := by
  interval_cases m <;> decide

theorem hexToBytes_bytesToHex {b : Bytes} (h : wfBytes b = true) :
    hexToBytes (bytesToHex b) = b := by
  induction b with
  | nil => rfl
  | cons x rest ih =>
    rw [wfBytes, List.all_cons, Bool.and_eq_true] at h
    have hx : x < 256 := by simpa using h.1
    have hrest := ih h.2
    show hexToBytes (byteToHex x ++ bytesToHex rest) = x :: rest
    simp only [byteToHex, List.cons_append, List.nil_append, hexToBytes]
    rw [hexDigitOf_val (by omega), hexDigitOf_val (by omega)]
    have hxx : x / 16 * 16 + x % 16 = x := by omega
    simp [hrest, hxx]

theorem bytesToHex_length (b : Bytes) :
    (bytesToHex b).length = 2 * b.length := by
  induction b with
  | nil => rfl
  | cons x rest ih =>
    simp only [bytesToHex, byteToHex, List.length_append, List.length_cons,
      List.length_nil, ih]
    omega

theorem bytesToHex_hex {b : Bytes} (h : wfBytes b = true) :
    (bytesToHex b).all isHexDigit = true := by
  induction b with
  | nil => rfl
  | cons x rest ih =>
    rw [wfBytes, List.all_cons, Bool.and_eq_true] at h
    have hx : x < 256 := by simpa using h.1
    simp only [bytesToHex, byteToHex, List.all_append, List.all_cons,
      List.all_nil, Bool.and_eq_true]
    exact ⟨⟨hexDigitOf_isHexDigit (by omega),
      hexDigitOf_isHexDigit (by omega), trivial⟩, ih h.2⟩

theorem isHexString_bytesToHex {b : Bytes} {n : Nat} (h : wfBytes b = true)
    (hl : b.length = n) :
    isHexString (bytesToHex b) (some (2 * n)) = true := by
  simp [isHexString, bytesToHex_length, hl, bytesToHex_hex h]

theorem wfBytes_reverse {b : Bytes} (h : wfBytes b = true) :
    wfBytes b.reverse = true := by
  simpa [wfBytes, List.all_reverse] using h

theorem isHexString_toHashHex {b : Bytes} (h : wfFixed b 32 = true) :
    isHexString (toHashHex b) (some 64) = true := by
  rw [wfFixed, Bool.and_eq_true, beq_iff_eq] at h
  have := isHexString_bytesToHex (n := 32) (wfBytes_reverse h.2)
    (by simpa using h.1)
  simpa [toHashHex] using this

theorem fromHashHex_toHashHex {b : Bytes} (h : wfBytes b = true) :
    fromHashHex (toHashHex b) = b := by
  rw [fromHashHex, toHashHex, hexToBytes_bytesToHex (wfBytes_reverse h),
    List.reverse_reverse]

theorem bytesToHex_all_zero {b : Bytes} (h : wfBytes b = true) :
    (bytesToHex b).all (fun c => c == '0') = b.all (fun x => x == 0) := by
  induction b with
  | nil => rfl
  | cons x rest ih =>
    rw [wfBytes, List.all_cons, Bool.and_eq_true] at h
    have hx : x < 256 := by simpa using h.1
    simp only [bytesToHex, byteToHex, List.all_append, List.all_cons,
      List.all_nil, List.all_cons]
    rw [hexDigitOf_eq_zero (by omega), hexDigitOf_eq_zero (by omega), ih h.2]
    have hz : ((x / 16 == 0) && ((x % 16 == 0) && true)) = (x == 0) := by
      by_cases hx0 : x = 0
      · subst hx0; rfl
      · have h1 : (x == 0) = false := by simpa using hx0
        rw [h1]
        by_cases hq : x / 16 = 0
        · have hr : x % 16 ≠ 0 := by omega
          have h2 : (x % 16 == 0) = false := by simpa using hr
          rw [h2, Bool.false_and, Bool.and_false]
        · have h2 : (x / 16 == 0) = false := by simpa using hq
          rw [h2, Bool.false_and]
    rw [hz]

theorem bytesToHex_isEmpty (b : Bytes) :
    (bytesToHex b).isEmpty = b.isEmpty := by
  cases b <;> rfl

theorem isEmpty_reverse (l : List α) : l.reverse.isEmpty = l.isEmpty := by
  cases l with
  | nil => rfl
  | cons x xs =>
    cases hr : (x :: xs).reverse with
    | nil => exact absurd (congrArg List.length hr) (by simp)
    | cons y ys => rfl

theorem isAllZeroHex_toHashHex {b : Bytes} (h : wfBytes b = true) :
    isAllZeroHex (toHashHex b)
      = (!b.isEmpty && b.all (fun x => x == 0)) := by
  rw [isAllZeroHex, toHashHex, bytesToHex_isEmpty,
    bytesToHex_all_zero (wfBytes_reverse h), List.all_reverse,
    isEmpty_reverse]

theorem parseHexNat_append_one (xs : List Char) (c : Char) :
    parseHexNat (xs ++ [c]) = parseHexNat xs * 16 + hexCharVal c := by
  simp [parseHexNat, List.foldl_append]

theorem parseHexNat_natToHexCore :
    ∀ fuel n, n ≤ fuel → parseHexNat (natToHexCore fuel n) = n := by
  intro fuel
  induction fuel with
  | zero =>
    intro n hn
    interval_cases n
    rfl
  | succ f ih =>
    intro n hn
    match n with
    | 0 => rfl
    | m + 1 =>
      rw [natToHexCore, parseHexNat_append_one,
        ih ((m + 1) / 16) (by omega),
        hexDigitOf_val (Nat.mod_lt _ (by omega))]
      omega

theorem parseHexNat_natToHex (n : Nat) : parseHexNat (natToHex n) = n := by
  rw [natToHex]
  by_cases h0 : n = 0
  · subst h0; decide
  · rw [if_neg h0]
    exact parseHexNat_natToHexCore n n le_rfl

theorem fromPorcelain_size_tx (H : Bytes → Bytes) (p : BlockPorcelain τ)
    (sz : Option Nat) (txs : Option (List τ)) :
    ZcashBlock.fromPorcelain H { p with size := sz, tx := txs }
      = ZcashBlock.fromPorcelain H p := by
  cases p
  rfl

theorem fromPorcelain_toJSON (H : Bytes → Bytes) (renderTx : Transaction → τ)
    (mode : PorcelainMode) (b : Block) :
    ZcashBlock.fromPorcelain H (Block.toJSON renderTx mode b)
      = ZcashBlock.fromPorcelain H (Block.toJSONbase b : BlockPorcelain τ) := by
  cases mode <;> cases hs : b.size <;> cases ht : b.tx <;>
    unfold Block.toJSON <;> (try rw [hs]) <;> (try rw [ht]) <;>
    exact fromPorcelain_size_tx H (Block.toJSONbase b) _ _

theorem encodeBlockHeader_len1487 {b : Block}
    (hpL : b.previousblockhash.length = 32) (hmL : b.merkleroot.length = 32)
    (hfL : b.finalsaplingroot.length = 32) (hnL : b.nonce.length = 32)
    (hsl : b.solution.length = 1344) :
    (encodeBlockHeader b).length = HEADER_BYTES := by
  rw [encodeBlockHeader, HEADER_BYTES]
  simp only [List.length_append, encodeInt32, leBytes_length, hpL, hmL, hfL,
    hnL, encodeVarBytes, hsl]
  norm_num [encodeCompactSize, leBytes_length]

theorem fromPorcelain_toJSONbase (H : Bytes → Bytes) {b : Block}
    (hp : wfFixed b.previousblockhash 32 = true)
    (hm : wfFixed b.merkleroot 32 = true)
    (hf : wfFixed b.finalsaplingroot 32 = true)
    (hn : wfFixed b.nonce 32 = true)
    (hs : wfBytes b.solution = true)
    (hsl : b.solution.length = 1344) :
    ZcashBlock.fromPorcelain H (Block.toJSONbase b : BlockPorcelain τ)
      = some { b with hash := H (encodeBlockHeader b), tx := none,
                      size := none } := by
  have hpL : b.previousblockhash.length = 32 := by
    have h2 := hp; rw [wfFixed, Bool.and_eq_true, beq_iff_eq] at h2
    exact h2.1
  have hpB : wfBytes b.previousblockhash = true := by
    have h2 := hp; rw [wfFixed, Bool.and_eq_true] at h2; exact h2.2
  have hmL : b.merkleroot.length = 32 := by
    have h2 := hm; rw [wfFixed, Bool.and_eq_true, beq_iff_eq] at h2
    exact h2.1
  have hmB : wfBytes b.merkleroot = true := by
    have h2 := hm; rw [wfFixed, Bool.and_eq_true] at h2; exact h2.2
  have hfL : b.finalsaplingroot.length = 32 := by
    have h2 := hf; rw [wfFixed, Bool.and_eq_true, beq_iff_eq] at h2
    exact h2.1
  have hfB : wfBytes b.finalsaplingroot = true := by
    have h2 := hf; rw [wfFixed, Bool.and_eq_true] at h2; exact h2.2
  have hnL : b.nonce.length = 32 := by
    have h2 := hn; rw [wfFixed, Bool.and_eq_true, beq_iff_eq] at h2
    exact h2.1
  have hnB : wfBytes b.nonce = true := by
    have h2 := hn; rw [wfFixed, Bool.and_eq_true] at h2; exact h2.2
  have hsol2688 : isHexString (bytesToHex b.solution) (some 2688) = true := by
    have h2 := isHexString_bytesToHex hs hsl
    norm_num at h2
    exact h2
  have henc : encodeBlock
      { b with hash := ([] : Bytes), tx := none, size := none }
      = encodeBlockHeader b := by
    simp [encodeBlock, encodeBlockHeader]
  have htake : (encodeBlockHeader b).take HEADER_BYTES
      = encodeBlockHeader b := by
    rw [← encodeBlockHeader_len1487 hpL hmL hfL hnL hsl, List.take_length]
  by_cases hz : isAllZeroHex (toHashHex b.previousblockhash) = true
  · have hprev : b.previousblockhash = NULL_HASH := by
      rw [isAllZeroHex_toHashHex hpB, Bool.and_eq_true,
        List.all_eq_true] at hz
      rw [NULL_HASH]
      exact List.eq_replicate_iff.mpr ⟨hpL, fun x hx => by simpa using hz.2 x hx⟩
    simp only [ZcashBlock.fromPorcelain, Block.toJSONbase, hz, if_true,
      isHexString_toHashHex hm, isHexString_toHashHex hf,
      isHexString_toHashHex hn, hsol2688, Bool.not_true, Bool.false_eq_true,
      if_false]
    rw [fromHashHex_toHashHex hmB, fromHashHex_toHashHex hfB,
      fromHashHex_toHashHex hnB, parseHexNat_natToHex,
      hexToBytes_bytesToHex hs, ← hprev]
    rw [hprev, ← hprev] at henc ⊢
    rw [henc, htake]
  · have hz' : isAllZeroHex (toHashHex b.previousblockhash) = false :=
      Bool.not_eq_true _ ▸ (by simpa using hz)
    simp only [ZcashBlock.fromPorcelain, Block.toJSONbase, hz',
      Bool.false_eq_true, if_false, isHexString_toHashHex hp,
      isHexString_toHashHex hm, isHexString_toHashHex hf,
      isHexString_toHashHex hn, hsol2688, Bool.not_true, if_false]
    rw [fromHashHex_toHashHex hpB, fromHashHex_toHashHex hmB,
      fromHashHex_toHashHex hfB, fromHashHex_toHashHex hnB,
      parseHexNat_natToHex, hexToBytes_bytesToHex hs]
    rw [henc, htake]

/-- C2 (amended): for every canonical encoding of a well-formed block with
a 1344-byte solution, decoding, converting to porcelain (any transaction
rendering, any mode) and rebuilding with `ZcashBlock.fromPorcelain`
succeeds, but yields the block WITHOUT its transactions (`tx`
reconstruction is commented out in the source): only the 1487-byte header
round-trips; the transaction vector is dropped, not re-emitted. -/
theorem c2_porcelain_roundtrip (H : Bytes → Bytes) (strict : Bool)
    (renderTx : Transaction → τ) (mode : PorcelainMode) (b : Block)
    (hwf : wfBlock b = true) (hsol : b.solution.length = 1344) :
    ∃ blk : Block, ZcashBlock.decode H (encodeBlock b) strict = .ok blk
      ∧ ZcashBlock.fromPorcelain H (Block.toPorcelain renderTx mode blk)
          = some { blk with tx := none, size := none }
      ∧ encodeBlock { blk with tx := none, size := none }
          = (encodeBlock b).take HEADER_BYTES := by
  have hwf' := hwf
  simp only [wfBlock, Bool.and_eq_true] at hwf'
  obtain ⟨⟨⟨⟨⟨⟨⟨⟨⟨⟨g1, g2⟩, g3⟩, g4⟩, g5⟩, g6⟩, g7⟩, g8⟩, g9⟩, g10⟩, g11⟩
    := hwf'
  obtain ⟨l, htx⟩ : ∃ l, b.tx = some l := by
    match htx : b.tx with
    | none => rw [htx] at g11; exact absurd g11 (by simp)
    | some l => exact ⟨l, rfl⟩
  have hpL : b.previousblockhash.length = 32 := by
    have h2 := g3; rw [wfFixed, Bool.and_eq_true, beq_iff_eq] at h2
    exact h2.1
  have hmL : b.merkleroot.length = 32 := by
    have h2 := g4; rw [wfFixed, Bool.and_eq_true, beq_iff_eq] at h2
    exact h2.1
  have hfL : b.finalsaplingroot.length = 32 := by
    have h2 := g5; rw [wfFixed, Bool.and_eq_true, beq_iff_eq] at h2
    exact h2.1
  have hnL : b.nonce.length = 32 := by
    have h2 := g8; rw [wfFixed, Bool.and_eq_true, beq_iff_eq] at h2
    exact h2.1
  refine ⟨reconBlock H b, ?_, ?_, ?_⟩
  · have hrun := dec_decodeBlock H hwf [] []
    simp only [List.nil_append, List.append_nil, List.length_nil] at hrun
    simp [ZcashBlock.decode, decodeType, hrun]
  · rw [Block.toPorcelain, fromPorcelain_toJSON,
      fromPorcelain_toJSONbase H (by simpa [reconBlock] using g3)
        (by simpa [reconBlock] using g4) (by simpa [reconBlock] using g5)
        (by simpa [reconBlock] using g8) (by simpa [reconBlock] using g9)
        (by simpa [reconBlock] using hsol)]
    have hhdr : encodeBlockHeader (reconBlock H b) = encodeBlockHeader b := by
      simp [encodeBlockHeader, reconBlock]
    rw [hhdr]
    simp [reconBlock]
  · have hL : encodeBlock { reconBlock H b with tx := none, size := none }
        = encodeBlockHeader b := by
      simp [encodeBlock, encodeBlockHeader, reconBlock]
    rw [hL, encodeBlock, htx,
      ← encodeBlockHeader_len1487 hpL hmL hfL hnL hsol, List.take_left]

set_option maxRecDepth 1000000 in
/-- C2 witness: the concrete block `c2Block` decodes, porcelains and
rebuilds to its header-only form. -/
theorem c2_porcelain_roundtrip_witness :
    wfBlock c2Block = true ∧ c2Block.solution.length = 1344
    ∧ ∃ blk : Block,
        ZcashBlock.decode witnessHash (encodeBlock c2Block) true = .ok blk
        ∧ ZcashBlock.fromPorcelain witnessHash
            (Block.toPorcelain (fun t => toHashHex t.txid)
              PorcelainMode.min blk)
            = some { blk with tx := none, size := none }
        ∧ encodeBlock { blk with tx := none, size := none }
            = (encodeBlock c2Block).take HEADER_BYTES :=
  ⟨by decide, by decide,
    c2_porcelain_roundtrip witnessHash true (fun t => toHashHex t.txid)
      PorcelainMode.min c2Block (by decide) (by decide)⟩

set_option maxRecDepth 1000000 in
/-- C2 counterexample: a concrete valid block byte string whose decoded
porcelain carries the transaction list, yet
`fromPorcelain ∘ toPorcelain ∘ decode` yields a block with no
transactions whose re-encoding is a strict prefix of (not equal to) the
original bytes: the porcelain round-trip does not re-emit the transaction
vector. -/
theorem c2_counterexample :
    ∃ blk blk' : Block,
      ZcashBlock.decode witnessHash (encodeBlock c2Block) true = .ok blk
      ∧ (Block.toPorcelain (fun t => toHashHex t.txid)
          PorcelainMode.min blk).tx ≠ none
      ∧ ZcashBlock.fromPorcelain witnessHash
          (Block.toPorcelain (fun t => toHashHex t.txid)
            PorcelainMode.min blk)
          = some blk'
      ∧ blk'.tx = none
      ∧ encodeBlock blk' ≠ encodeBlock c2Block := by
  have hwf : wfBlock c2Block = true := by decide
  refine ⟨reconBlock witnessHash c2Block,
    { c2Block with
        hash := witnessHash (encodeBlockHeader c2Block),
        tx := none, size := none },
    ?_, ?_, ?_, rfl, ?_⟩
  · have hrun := dec_decodeBlock witnessHash hwf [] []
    simp only [List.nil_append, List.append_nil, List.length_nil] at hrun
    simp [ZcashBlock.decode, decodeType, hrun]
  · simp [Block.toPorcelain, Block.toJSON, reconBlock]
  · rw [Block.toPorcelain, fromPorcelain_toJSON,
      fromPorcelain_toJSONbase witnessHash (by decide) (by decide)
        (by decide) (by decide) (by decide) (by decide)]
    have hhdr : encodeBlockHeader (reconBlock witnessHash c2Block)
        = encodeBlockHeader c2Block := by
      simp [encodeBlockHeader, reconBlock]
    rw [hhdr]
    simp [reconBlock]
  · intro hEq
    exact absurd (congrArg List.length hEq) (by decide)

/-- C6 (amended): a JoinSplit description built from porcelain always
stores its proof as opaque raw bytes (the Buffer/Groth form), whatever
the hex string's length; on encode the Groth branch is chosen exactly for
that raw-byte form (`Buffer.isBuffer`) and the PHGR branch exactly for
decoded `ZcashPHGRProof` objects — the branch is never a 192-byte length
test. -/
theorem c6_sprout_proof_branch :
    (∀ (p : JSPorcelain) (js : JSDescription),
        JSDescription.fromPorcelain p = some js →
          js.proof = SproutProof.groth (hexToBytes p.proof))
    ∧ (∀ pr : SproutProof, sproutProofIsBuffer pr = true
        ↔ ∃ bs : Bytes, pr = SproutProof.groth bs)
    ∧ (∀ bs : Bytes, encodeSproutProof (SproutProof.groth bs) = bs)
    ∧ (∀ ph : PHGRProof,
        encodeSproutProof (SproutProof.phgr ph) = encodePHGRProof ph) := by
  refine ⟨?_, ?_, fun bs => rfl, fun ph => rfl⟩
  · intro p js h
    unfold JSDescription.fromPorcelain at h
    split at h
    · exact absurd h (by simp)
    split at h
    · exact absurd h (by simp)
    split at h
    · exact absurd h (by simp)
    split at h
    · exact absurd h (by simp)
    split at h
    · exact absurd h (by simp)
    split at h
    · exact absurd h (by simp)
    split at h
    · exact absurd h (by simp)
    split at h
    · exact absurd h (by simp)
    rw [← Option.some.inj h]
  · intro pr
    cases pr with
    | groth bs => simp [sproutProofIsBuffer]
    | phgr ph => simp [sproutProofIsBuffer]

set_option maxRecDepth 10000 in
/-- C6 witness: `c6Porcelain` (2-hex-character proof) is accepted and its
proof is stored as the 1-byte Buffer form, which the encoder emits via the
Groth branch. -/
theorem c6_sprout_proof_branch_witness :
    JSDescription.fromPorcelain c6Porcelain = some c6JS
    ∧ c6JS.proof = SproutProof.groth (hexToBytes c6Porcelain.proof)
    ∧ sproutProofIsBuffer c6JS.proof = true
    ∧ encodeSproutProof (SproutProof.groth [171]) = [171] :=
  ⟨by decide, c6_sprout_proof_branch.1 c6Porcelain c6JS (by decide),
    (c6_sprout_proof_branch.2.1 c6JS.proof).mpr ⟨[171], rfl⟩,
    c6_sprout_proof_branch.2.2.1 [171]⟩

set_option maxRecDepth 10000 in
/-- C6 counterexample: the 1-byte proof built from `c6Porcelain` is not
192 bytes long, yet the encoder takes the Groth branch for it — refuting
`192 ⇒ Groth, otherwise PHGR` as the branch rule. -/
theorem c6_counterexample :
    JSDescription.fromPorcelain c6Porcelain = some c6JS
    ∧ sproutProofIsBuffer c6JS.proof = true
    ∧ sproutProofLength c6JS.proof ≠ 192
    ∧ encodeSproutProof c6JS.proof = [171] :=
  ⟨by decide, rfl, by decide, rfl⟩

set_option maxRecDepth 10000 in
/-- C9: refuted on the `spendAuthSig` arm — the source checks
`isHexString(porcelain.spendAuthSig)` with no length argument, so a
porcelain whose `spendAuthSig` is the 4-character hex string `"abcd"`
(2 bytes instead of 64) is accepted and a `SpendDescription` IS produced,
although its own error message and the spec ask for a fixed 64-byte
signature (the `proof` arm does check 384 characters). -/
theorem c9_spend_auth_sig_unchecked :
    SpendDescription.fromPorcelain c9Porcelain = some c9Spend
    ∧ c9Porcelain.spendAuthSig.length ≠ 128
    ∧ c9Spend.spendAuthSig.length ≠ 64 :=
  ⟨by decide, by decide, by decide⟩

end ZcashSpec
